import Mathlib

/-!
# galpy: adiabatic-approximation actions (actionAngleAdiabatic.c)

A shallow embedding of the C kernel `actionAngleAdiabatic.c`, followed by
theorems about it.

Modelling conventions.

* A C `double` is an element of an arbitrary linearly ordered field `α`
  (exact arithmetic: rounding, overflow, infinities and the result of a
  division by zero are outside the model).  Every definition is computable, so
  the model runs on `ℚ`.
* The NaN that libm `sqrt` returns for a negative argument is modelled: a value
  that may be NaN is an `Option α`, with `none` for NaN, and arithmetic on such
  values propagates `none`.  The integrands of `calcJR` and `calcJz`, the
  quadrature and the cells these two routines store to are of this kind.
* A C array is a function `Nat → α`; a store `*(a+ii)= v` is
  `Function.update a ii v`.  Distinct array parameters do not alias.
* `for (ii=0; ii < ndata; ii++)` is `forLoop` / `forLoopM`.
* A `while` loop that the source does not bound takes a fuel argument and
  yields `none` when the fuel is exhausted before the loop condition fails.
* External collaborators are parameters: the potential `evaluatePotentials`
  (with its `nargs, actionAngleArgs` context folded in), `evaluatePotentialsUV`,
  libm `sinh` and `sqrt`, and the GSL root finder (`Fsolver`).  The GSL
  quadrature `gsl_integration_glfixed` is written out.
* `gsl_set_error_handler_off` precedes every `gsl_root_fsolver_set`, so a GSL
  error never aborts the process; the handler state is not modelled.
* Bracket-expansion steps, root-finder initialisations and quadrature calls
  are recorded in a trace of `Event`s.

The source does not compile as it stands; the embedding reads it as follows.
`struct JzAdiabaticArg` is declared with Staeckel fields, but `calcZmax` and
`JzAdiabaticIntegrandSquared` use `params->Ez` and `params->R`: the structure
has those two fields.  `struct JRStaeckelArg` and `struct JzStaeckelArg` are
not declared: their fields are the ones the code assigns.
`actionAngleAdiabatic_actions` calls `calcZmax(ndata,jz,z,R,Ez,npot,args)`,
one argument short of the definition, whose fourth parameter `vz` is never
read: the arguments are matched by name (`zmax := jz`).
-/

namespace Galpy

/-! ## Definitions -/

/-- GSL status codes that the source inspects. -/
inductive Status where
  | GSL_SUCCESS
  | GSL_CONTINUE
  | GSL_EINVAL
  | GSL_FAILURE
deriving DecidableEq, Repr

/-- Calls and loop steps recorded while a kernel runs; the first component is
the index `ii` of the data point being processed. -/
inductive Event (α : Type) where
  /-- One execution of the body of a bracket-expansion `while` loop; the
  arguments are the bounds the body started from. -/
  | expand (ii : Nat) (lo hi : α)
  /-- A call `gsl_root_fsolver_set (s, &F, lo, hi)`. -/
  | fsolverSet (ii : Nat) (lo hi : α)
  /-- A call `gsl_integration_glfixed (&F, a, b, T)`. -/
  | glfixed (ii : Nat) (a b : α)

/-- Index of the data point an event belongs to. -/
def Event.idx {α : Type} : Event α → Nat
  | .expand ii _ _ => ii
  | .fsolverSet ii _ _ => ii
  | .glfixed ii _ _ => ii

/-- The bounds carried by an event. -/
def Event.bounds {α : Type} : Event α → α × α
  | .expand _ lo hi => (lo, hi)
  | .fsolverSet _ lo hi => (lo, hi)
  | .glfixed _ a b => (a, b)

/-- The loop `for (ii=0; ii < n; ii++) body`, on a state `σ`. -/
def forLoop {σ : Type} : Nat → (Nat → σ → σ) → σ → σ
  | 0, _, s => s
  | n + 1, body, s => body n (forLoop n body s)

/-- The loop `for (ii=0; ii < n; ii++) body` when the body may fail to return. -/
def forLoopM {σ : Type} : Nat → (Nat → σ → Option σ) → σ → Option σ
  | 0, _, s => some s
  | n + 1, body, s => (forLoopM n body s).bind (body n)

section Field

variable {α : Type} [LinearOrderedField α]

/-- The literal `-9999.99`: undefined turning point. -/
def turnSentinel : α := -(999999 / 100)

/-- The literal `9999.99`: undefined action. -/
def actionSentinel : α := 999999 / 100

/-- The literal `0.0000001`. -/
def eps7 : α := 1 / 10000000

/-- The literal `0.00000001`. -/
def eps8 : α := 1 / 100000000

/-- The literal `0.000001` (circular-orbit tolerance in calcJR and calcJz). -/
def eps6 : α := 1 / 1000000

/-- The macro `M_PI`, i.e. the literal `3.14159265358979323846`. -/
def M_PI : α := 314159265358979323846 / 100000000000000000000

/-- The function `evaluateVerticalPotentials` (lines 532-537); `Phi` is the
external `evaluatePotentials` with the potential arguments fixed. -/
def evaluateVerticalPotentials (Phi : α → α → α) (R z : α) : α :=
  Phi R z - Phi R 0

/-- Memory touched by `calcEREzL`: five input arrays and three output arrays. -/
structure EnergyMem (α : Type) where
  R : Nat → α
  vR : Nat → α
  vT : Nat → α
  z : Nat → α
  vz : Nat → α
  ER : Nat → α
  Ez : Nat → α
  Lz : Nat → α

/-- Body of the loop of `calcEREzL` (lines 85-92). -/
def calcEREzLBody (Phi : α → α → α) (ii : Nat) (m : EnergyMem α) : EnergyMem α :=
  let er : α := Phi (m.R ii) 0 + 1 / 2 * m.vR ii * m.vR ii + 1 / 2 * m.vT ii * m.vT ii
  let m1 : EnergyMem α := { m with ER := Function.update m.ER ii er }
  let ez : α := evaluateVerticalPotentials Phi (m1.R ii) (m1.z ii) + 1 / 2 * m1.vz ii * m1.vz ii
  let m2 : EnergyMem α := { m1 with Ez := Function.update m1.Ez ii ez }
  { m2 with Lz := Function.update m2.Lz ii (m2.R ii * m2.vT ii) }

/-- The function `calcEREzL` (lines 72-94). -/
def calcEREzL (ndata : Nat) (m : EnergyMem α) (Phi : α → α → α) : EnergyMem α :=
  forLoop ndata (calcEREzLBody Phi) m

/-- Parameter block read by `JzAdiabaticIntegrandSquared`: the fields `Ez` and
`R` that `calcZmax` stores and the integrand reads. -/
structure JzAdiabaticArg (α : Type) where
  Ez : α
  R : α

/-- The function `JzAdiabaticIntegrandSquared` (lines 517-523). -/
def JzAdiabaticIntegrandSquared (Phi : α → α → α) (z : α) (params : JzAdiabaticArg α) : α :=
  params.Ez - evaluateVerticalPotentials Phi params.R z

/-- Interface of the GSL one-dimensional root finder as the source uses it.
`σ` is the workspace `gsl_root_fsolver`. -/
structure Fsolver (α σ : Type) where
  /-- Result of `gsl_root_fsolver_alloc`. -/
  alloc : σ
  /-- The call `gsl_root_fsolver_set (s, &F, x_lower, x_upper)`: status and new workspace. -/
  set : σ → (α → α) → α → α → Status × σ
  /-- The call `gsl_root_fsolver_iterate (s)` (the source discards its status). -/
  iterate : (α → α) → σ → σ
  /-- The call `gsl_root_fsolver_x_lower (s)`. -/
  x_lower : σ → α
  /-- The call `gsl_root_fsolver_x_upper (s)`. -/
  x_upper : σ → α
  /-- The call `gsl_root_fsolver_root (s)`. -/
  root : σ → α
  /-- The call `gsl_root_test_interval (x_lower, x_upper, epsabs, epsrel)`. -/
  test_interval : α → α → α → α → Status

/-- The literal `9.9999999999999998e-13`. -/
def epsabs : α := 99999999999999998 / 100000000000000000000000000000

/-- The literal `4.4408920985006262e-16`. -/
def epsrel : α := 44408920985006262 / 100000000000000000000000000000000

/-- The refinement loop
`do { iter++; iterate; x_lower; x_upper; status = test_interval } while (status == GSL_CONTINUE && iter < max_iter)`.
The first argument is `max_iter - iter` after the increment, so the loop is
entered with `max_iter - 1`. -/
def refineLoop {σ : Type} (S : Fsolver α σ) (F : α → α) : Nat → σ → Status × σ
  | 0, s =>
    let s1 := S.iterate F s
    (S.test_interval (S.x_lower s1) (S.x_upper s1) epsabs epsrel, s1)
  | k + 1, s =>
    let s1 := S.iterate F s
    let status := S.test_interval (S.x_lower s1) (S.x_upper s1) epsabs epsrel
    if status = Status.GSL_CONTINUE then refineLoop S F k s1 else (status, s1)

/-- The value `max_iter = 100`. -/
def max_iter : Nat := 100

/-- The "Find root" block that the source repeats after every bracket search:
set the solver, give up on `GSL_EINVAL`, refine, give up on `GSL_EINVAL`, read
the root.  `none` stands for the two `GSL_EINVAL` exits. -/
def findRoot {σ : Type} (S : Fsolver α σ) (F : α → α) (s : σ) (lo hi : α) : Option α × σ :=
  let r := S.set s F lo hi
  if r.1 = Status.GSL_EINVAL then (none, r.2)
  else
    let q := refineLoop S F (max_iter - 1) r.2
    if q.1 = Status.GSL_EINVAL then (none, q.2)
    else (some (S.root q.2), q.2)

/-- The bracket expansion of `calcZmax` (lines 464-467):
`while ( F(z_lo) >= 0. ) { z_lo= z_hi; z_hi*= 1.1; }`.
Returns the final bounds and the trace extended by one `expand` event per
executed body, or `none` when the fuel runs out. -/
def expandZ (F : α → α) (ii : Nat) : Nat → α → α → List (Event α) → Option (α × α × List (Event α))
  | 0, _, _, _ => none
  | fuel + 1, z_lo, z_hi, tr =>
    if 0 ≤ F z_lo then expandZ F ii fuel z_hi (z_hi * (11 / 10)) (tr ++ [Event.expand ii z_lo z_hi])
    else some (z_lo, z_hi, tr)

/-- State threaded through the loop of `calcZmax`: the output array, the solver
workspace and the trace. -/
structure ZmaxState (α σ : Type) where
  zmax : Nat → α
  s : σ
  trace : List (Event α)

/-- Body of the loop of `calcZmax` (lines 453-493) for the point `ii`. -/
def calcZmaxBody {σ : Type} (S : Fsolver α σ) (Phi : α → α → α) (fuel : Nat)
    (z R Ez : Nat → α) (ii : Nat) (st : ZmaxState α σ) : Option (ZmaxState α σ) :=
  let params : JzAdiabaticArg α := { Ez := Ez ii, R := R ii }
  let JzRoot : α → α := fun x => JzAdiabaticIntegrandSquared Phi x params
  if |JzRoot (z ii)| < eps7 then
    some { st with zmax := Function.update st.zmax ii (z ii) }
  else
    match expandZ JzRoot ii fuel (z ii) (11 / 10 * z ii) st.trace with
    | none => none
    | some (z_lo, z_hi, tr) =>
      let r := findRoot S JzRoot st.s z_lo z_hi
      let tr1 := tr ++ [Event.fsolverSet ii z_lo z_hi]
      match r.1 with
      | none => some { zmax := Function.update st.zmax ii turnSentinel, s := r.2, trace := tr1 }
      | some root => some { zmax := Function.update st.zmax ii root, s := r.2, trace := tr1 }

/-- The function `calcZmax` (lines 430-496).  The parameter `vz` is declared by
the source and never read. -/
def calcZmax {σ : Type} (S : Fsolver α σ) (Phi : α → α → α) (fuel : Nat) (ndata : Nat)
    (zmax z _vz R Ez : Nat → α) : Option (ZmaxState α σ) :=
  forLoopM ndata (calcZmaxBody S Phi fuel z R Ez) { zmax := zmax, s := S.alloc, trace := [] }

/-- Output arrays of `actionAngleAdiabatic_actions` together with the trace of
the run. -/
structure ActionsOut (α : Type) where
  jr : Nat → α
  jz : Nat → α
  err : Nat → Int
  trace : List (Event α)

/-- The function `actionAngleAdiabatic_actions` (lines 98-134).  `Phi` is the
potential set up by `parse_actionAngleArgs` from `npot, pot_type, pot_args`;
`gamma` is not read.  The freshly allocated `ER, Ez, Lz` start zero-filled
(every cell below `ndata` is stored before it is read).  The only kernel the
body calls after `calcEREzL` is `calcZmax`, with `jz` as its output array; the
call in the source leaves out the unread `vz` argument.  Nothing stores to `jr`
or `err`. -/
def actionAngleAdiabatic_actions {σ : Type} (S : Fsolver α σ) (Phi : α → α → α) (fuel : Nat)
    (ndata : Nat) (R vR vT z vz : Nat → α) (_gamma : α)
    (jr jz : Nat → α) (err : Nat → Int) : Option (ActionsOut α) :=
  let m := calcEREzL ndata
    { R := R, vR := vR, vT := vT, z := z, vz := vz,
      ER := fun _ => 0, Ez := fun _ => 0, Lz := fun _ => 0 } Phi
  match calcZmax S Phi fuel ndata jz z vz R m.Ez with
  | none => none
  | some st => some { jr := jr, jz := st.zmax, err := err, trace := st.trace }

/-- Parameter block `struct JRStaeckelArg` as `calcJR`, `calcUminUmax` and
`JRStaeckelIntegrandSquared` use it (the potential context is in `PhiUV`). -/
structure JRStaeckelArg (α : Type) where
  E : α
  Lz22delta : α
  I3U : α
  delta : α
  u0 : α
  sinh2u0 : α
  v0 : α
  sin2v0 : α
  potu0v0 : α

/-- The parameter block that `calcJR` (lines 154, 170-177) and `calcUminUmax`
(lines 252, 266-273) fill in for the point `ii`. -/
def JRStaeckelArg.ofPoint (E Lz I3U : Nat → α) (delta : α)
    (u0 sinh2u0 v0 sin2v0 potu0v0 : Nat → α) (ii : Nat) : JRStaeckelArg α :=
  { E := E ii, Lz22delta := 1 / 2 * Lz ii * Lz ii / delta / delta, I3U := I3U ii,
    delta := delta, u0 := u0 ii, sinh2u0 := sinh2u0 ii, v0 := v0 ii,
    sin2v0 := sin2v0 ii, potu0v0 := potu0v0 ii }

/-- The function `JRStaeckelIntegrandSquared` (lines 502-511); `sinh` is libm
and `PhiUV u v delta` is the external `evaluatePotentialsUV`. -/
def JRStaeckelIntegrandSquared (sinh : α → α) (PhiUV : α → α → α → α) (u : α)
    (params : JRStaeckelArg α) : α :=
  let sinh2u := sinh u * sinh u
  let dU := (sinh2u + params.sin2v0) * PhiUV u params.v0 params.delta
    - (params.sinh2u0 + params.sin2v0) * params.potu0v0
  params.E * sinh2u - params.I3U - dU - params.Lz22delta / sinh2u

/-- The libm call `sqrt(x)`: NaN (`none`) for a negative argument, and the
value `sqrt x` of the parameter `sqrt` otherwise. -/
def libmSqrt (sqrt : α → α) (x : α) : Option α :=
  if x < 0 then none else some (sqrt x)

/-- Addition of doubles that may be NaN. -/
def nanAdd (x y : Option α) : Option α :=
  Option.map₂ (fun a b => a + b) x y

/-- Multiplication of doubles that may be NaN. -/
def nanMul (x y : Option α) : Option α :=
  Option.map₂ (fun a b => a * b) x y

/-- Division of doubles that may be NaN (the divisors met are never zero). -/
def nanDiv (x y : Option α) : Option α :=
  Option.map₂ (fun a b => a / b) x y

/-- The function `JRStaeckelIntegrand` (lines 498-501): the libm `sqrt` of the
squared integrand, with no test of its sign. -/
def JRStaeckelIntegrand (sqrt sinh : α → α) (PhiUV : α → α → α → α) (u : α)
    (params : JRStaeckelArg α) : Option α :=
  libmSqrt sqrt (JRStaeckelIntegrandSquared sinh PhiUV u params)

/-- Parameter block `struct JzStaeckelArg` as `calcJz` fills it. -/
structure JzStaeckelArg (α : Type) where
  E : α
  Lz22delta : α
  I3V : α
  delta : α
  u0 : α
  cosh2u0 : α
  sinh2u0 : α
  potupi2 : α

/-- The parameter block that `calcJz` (lines 202, 218-224) fills in for the
point `ii`. -/
def JzStaeckelArg.ofPoint (E Lz I3V : Nat → α) (delta : α)
    (u0 cosh2u0 sinh2u0 potupi2 : Nat → α) (ii : Nat) : JzStaeckelArg α :=
  { E := E ii, Lz22delta := 1 / 2 * Lz ii * Lz ii / delta / delta, I3V := I3V ii,
    delta := delta, u0 := u0 ii, cosh2u0 := cosh2u0 ii, sinh2u0 := sinh2u0 ii,
    potupi2 := potupi2 ii }

/-- Modelled from the spec: `JzStaeckelIntegrand`, which `calcJz` integrates, is
not defined in this file.  The spec describes the integrand as the square root
of an energy-minus-effective-potential function; `JzSq` is that function, left
arbitrary, so this mirrors `JRStaeckelIntegrand`. -/
def JzStaeckelIntegrand (sqrt : α → α) (JzSq : α → JzStaeckelArg α → α) (v : α)
    (params : JzStaeckelArg α) : Option α :=
  libmSqrt sqrt (JzSq v params)

/-- The table `gsl_integration_glfixed_table`: order `n`, and the nodes `x` and
weights `w` of the upper half of the rule (index below `(n+1)/2`). -/
structure GLTable (α : Type) where
  n : Nat
  x : Nat → α
  w : Nat → α

/-- The points at which `gsl_integration_glfixed (f, a, b, t)` evaluates `f`:
`B + A x[i]` and `B - A x[i]` for the half-table, and the centre `B` alone for
index `0` when `n` is odd. -/
def glfixedNodes (a b : α) (t : GLTable α) : List α :=
  let m := (t.n + 1) / 2
  let A := 1 / 2 * (b - a)
  let B := 1 / 2 * (b + a)
  if t.n % 2 = 1 then
    B :: (List.range' 1 (m - 1)).flatMap (fun i => [B + A * t.x i, B - A * t.x i])
  else (List.range m).flatMap (fun i => [B + A * t.x i, B - A * t.x i])

/-- The GSL routine `gsl_integration_glfixed (f, a, b, t)`: with
`A = (b-a)/2`, `B = (b+a)/2` and `m = (n+1) >> 1` it returns `A * s`, where
`s` starts from `w[0] * f(B)` (`n` odd, loop from `i = 1`) or from `0` (`n`
even, loop from `i = 0`) and the loop up to `m` adds
`w[i] * (f(B + A x[i]) + f(B - A x[i]))`.  A NaN value of `f` makes the
result NaN. -/
def gsl_integration_glfixed (f : α → Option α) (a b : α) (t : GLTable α) : Option α :=
  let m := (t.n + 1) / 2
  let A := 1 / 2 * (b - a)
  let B := 1 / 2 * (b + a)
  let term : Nat → Option α := fun i =>
    nanMul (some (t.w i)) (nanAdd (f (B + A * t.x i)) (f (B - A * t.x i)))
  let s := if t.n % 2 = 1 then
      (List.range' 1 (m - 1)).foldl (fun s i => nanAdd s (term i)) (nanMul (some (t.w 0)) (f B))
    else (List.range m).foldl (fun s i => nanAdd s (term i)) (some 0)
  nanMul (some A) s

/-- State threaded through the loops of `calcJR` and `calcJz`: the output array
(cells that may hold NaN) and the trace. -/
structure ActionState (α : Type) where
  j : Nat → Option α
  trace : List (Event α)

/-- Body of the loop of `calcJR` (lines 161-181) for the point `ii`. -/
def calcJRBody (sqrt sinh : α → α) (PhiUV : α → α → α → α) (T : GLTable α)
    (umin umax E Lz I3U : Nat → α) (delta : α) (u0 sinh2u0 v0 sin2v0 potu0v0 : Nat → α)
    (ii : Nat) (st : ActionState α) : ActionState α :=
  if umin ii = turnSentinel ∨ umax ii = turnSentinel then
    { st with j := Function.update st.j ii (some actionSentinel) }
  else if (umax ii - umin ii) / umax ii < eps6 then
    { st with j := Function.update st.j ii (some 0) }
  else
    let params := JRStaeckelArg.ofPoint E Lz I3U delta u0 sinh2u0 v0 sin2v0 potu0v0 ii
    let JRInt : α → Option α := fun u => JRStaeckelIntegrand sqrt sinh PhiUV u params
    let q := gsl_integration_glfixed JRInt (umin ii) (umax ii) T
    { j := Function.update st.j ii
        (nanDiv (nanMul (nanMul q (libmSqrt sqrt 2)) (some delta)) (some M_PI)),
      trace := st.trace ++ [Event.glfixed ii (umin ii) (umax ii)] }

/-- The function `calcJR` (lines 135-184); `T` is the table allocated for
`order`. -/
def calcJR (sqrt sinh : α → α) (PhiUV : α → α → α → α) (T : GLTable α) (ndata : Nat)
    (jr : Nat → Option α) (umin umax E Lz I3U : Nat → α) (delta : α)
    (u0 sinh2u0 v0 sin2v0 potu0v0 : Nat → α) : ActionState α :=
  forLoop ndata (calcJRBody sqrt sinh PhiUV T umin umax E Lz I3U delta u0 sinh2u0 v0 sin2v0 potu0v0)
    { j := jr, trace := [] }

/-- Body of the loop of `calcJz` (lines 209-228) for the point `ii`. -/
def calcJzBody (sqrt : α → α) (JzSq : α → JzStaeckelArg α → α) (T : GLTable α)
    (vmin E Lz I3V : Nat → α) (delta : α) (u0 cosh2u0 sinh2u0 potupi2 : Nat → α)
    (ii : Nat) (st : ActionState α) : ActionState α :=
  if vmin ii = turnSentinel then
    { st with j := Function.update st.j ii (some actionSentinel) }
  else if (1 / 2 * M_PI - vmin ii) / M_PI * 2 < eps6 then
    { st with j := Function.update st.j ii (some 0) }
  else
    let params := JzStaeckelArg.ofPoint E Lz I3V delta u0 cosh2u0 sinh2u0 potupi2 ii
    let JzInt : α → Option α := fun v => JzStaeckelIntegrand sqrt JzSq v params
    let q := gsl_integration_glfixed JzInt (vmin ii) (M_PI / 2) T
    { j := Function.update st.j ii
        (nanDiv (nanMul (nanMul (nanMul q (some 2)) (libmSqrt sqrt 2)) (some delta))
          (some M_PI)),
      trace := st.trace ++ [Event.glfixed ii (vmin ii) (M_PI / 2)] }

/-- The function `calcJz` (lines 185-231). -/
def calcJz (sqrt : α → α) (JzSq : α → JzStaeckelArg α → α) (T : GLTable α) (ndata : Nat)
    (jz : Nat → Option α) (vmin E Lz I3V : Nat → α) (delta : α)
    (u0 cosh2u0 sinh2u0 potupi2 : Nat → α) : ActionState α :=
  forLoop ndata (calcJzBody sqrt JzSq T vmin E Lz I3V delta u0 cosh2u0 sinh2u0 potupi2)
    { j := jz, trace := [] }

/-- The contract of `gsl_root_fsolver_set` that the sentinel branches rely on:
an interval with `lower > upper`, or whose end values lie strictly on the same
side of zero, is rejected with `GSL_EINVAL`. -/
def Fsolver.RejectsInvalid {σ : Type} (S : Fsolver α σ) : Prop :=
  ∀ (s : σ) (F : α → α) (lo hi : α),
    (hi < lo ∨ (F lo < 0 ∧ F hi < 0) ∨ (0 < F lo ∧ 0 < F hi)) →
      (S.set s F lo hi).1 = Status.GSL_EINVAL

/-- The GSL routine `gsl_root_test_interval`, for non-negative tolerances. -/
def gsl_root_test_interval (x_lower x_upper ea er : α) : Status :=
  if x_upper < x_lower then Status.GSL_EINVAL
  else
    let min_abs : α :=
      if (0 < x_lower ∧ 0 < x_upper) ∨ (x_lower < 0 ∧ x_upper < 0) then min |x_lower| |x_upper|
      else 0
    if |x_upper - x_lower| < ea + er * min_abs then Status.GSL_SUCCESS
    else Status.GSL_CONTINUE

/-- A reference instance of the root-finder interface, used to run the kernels
on concrete data: `set` validates the bracket as GSL does, `iterate` halves the
bracket keeping the sign change, `root` is the midpoint. -/
def refSolver : Fsolver α (α × α) where
  alloc := (0, 0)
  set := fun s F lo hi =>
    if hi < lo then (Status.GSL_EINVAL, s)
    else if (F lo < 0 ∧ F hi < 0) ∨ (0 < F lo ∧ 0 < F hi) then (Status.GSL_EINVAL, s)
    else (Status.GSL_SUCCESS, (lo, hi))
  iterate := fun F s =>
    let mid := (s.1 + s.2) / 2
    if F mid = 0 then (mid, mid)
    else if (F s.1 < 0 ∧ 0 < F mid) ∨ (0 < F s.1 ∧ F mid < 0) then (s.1, mid)
    else (mid, s.2)
  x_lower := fun s => s.1
  x_upper := fun s => s.2
  root := fun s => (s.1 + s.2) / 2
  test_interval := gsl_root_test_interval

/-- The harmonic-oscillator test potential `Phi(R,z) = k z^2 / 2` of the spec's scenario. -/
def harmonicPhi (k : α) : α → α → α := fun _ z => k * z ^ 2 / 2

end Field

/-! ## Loop lemmas -/

theorem forLoop_at {σ : Type} (body : Nat → σ → σ) (I P : σ → Prop) (ii : Nat)
    (hI : ∀ j s, j ≠ ii → I s → I (body j s))
    (hest : ∀ s, I s → P (body ii s))
    (hpres : ∀ j s, j ≠ ii → P s → P (body j s)) (s0 : σ) (h0 : I s0) :
    ∀ n, (n ≤ ii → I (forLoop n body s0)) ∧ (ii < n → P (forLoop n body s0)) := by
  intro n
  induction n with
  | zero => exact ⟨fun _ => h0, fun h => absurd h (Nat.not_lt_zero _)⟩
  | succ n ih =>
    refine ⟨fun hle => ?_, fun hlt => ?_⟩
    · exact hI n _ (by omega) (ih.1 (by omega))
    · show P (body n (forLoop n body s0))
      rcases Nat.lt_succ_iff_lt_or_eq.mp hlt with h | h
      · exact hpres n _ (by omega) (ih.2 h)
      · subst h
        exact hest _ (ih.1 le_rfl)

theorem forLoop_inv {σ : Type} (body : Nat → σ → σ) (I : σ → Prop)
    (hI : ∀ j s, I s → I (body j s)) (s0 : σ) (h0 : I s0) :
    ∀ n, I (forLoop n body s0) := by
  intro n
  induction n with
  | zero => exact h0
  | succ n ih => exact hI n _ ih

theorem forLoopM_succ_some {σ : Type} (body : Nat → σ → Option σ) (n : Nat) (s0 s1 : σ)
    (h : forLoopM (n + 1) body s0 = some s1) :
    ∃ s, forLoopM n body s0 = some s ∧ body n s = some s1 := by
  simp only [forLoopM] at h
  cases hq : forLoopM n body s0 with
  | none => rw [hq] at h; simp at h
  | some s => rw [hq] at h; exact ⟨s, rfl, h⟩

theorem forLoopM_at {σ : Type} (body : Nat → σ → Option σ) (I P : σ → Prop) (ii : Nat)
    (hI : ∀ j s s1, j ≠ ii → body j s = some s1 → I s → I s1)
    (hest : ∀ s s1, body ii s = some s1 → I s → P s1)
    (hpres : ∀ j s s1, j ≠ ii → body j s = some s1 → P s → P s1) (s0 : σ) (h0 : I s0) :
    ∀ n s1, forLoopM n body s0 = some s1 → (n ≤ ii → I s1) ∧ (ii < n → P s1) := by
  intro n
  induction n with
  | zero =>
    intro s1 h
    simp only [forLoopM, Option.some.injEq] at h
    subst h
    exact ⟨fun _ => h0, fun h => absurd h (Nat.not_lt_zero _)⟩
  | succ n ih =>
    intro s1 h
    obtain ⟨s, hs, hb⟩ := forLoopM_succ_some body n s0 s1 h
    have ih1 := ih s hs
    refine ⟨fun hle => ?_, fun hlt => ?_⟩
    · exact hI n s s1 (by omega) hb (ih1.1 (by omega))
    · rcases Nat.lt_succ_iff_lt_or_eq.mp hlt with h | h
      · exact hpres n s s1 (by omega) hb (ih1.2 h)
      · subst h
        exact hest s s1 hb (ih1.1 le_rfl)

section FieldLemmas

variable {α : Type} [LinearOrderedField α]

/-! ## calcEREzL -/

theorem calcEREzLBody_inputs (Phi : α → α → α) (j : Nat) (m : EnergyMem α) :
    (calcEREzLBody Phi j m).R = m.R ∧ (calcEREzLBody Phi j m).vR = m.vR ∧
    (calcEREzLBody Phi j m).vT = m.vT ∧ (calcEREzLBody Phi j m).z = m.z ∧
    (calcEREzLBody Phi j m).vz = m.vz :=
  ⟨rfl, rfl, rfl, rfl, rfl⟩

theorem calcEREzL_inputs (Phi : α → α → α) (ndata : Nat) (m : EnergyMem α) :
    (calcEREzL ndata m Phi).R = m.R ∧ (calcEREzL ndata m Phi).vR = m.vR ∧
    (calcEREzL ndata m Phi).vT = m.vT ∧ (calcEREzL ndata m Phi).z = m.z ∧
    (calcEREzL ndata m Phi).vz = m.vz := by
  refine forLoop_inv (calcEREzLBody Phi)
    (fun s => s.R = m.R ∧ s.vR = m.vR ∧ s.vT = m.vT ∧ s.z = m.z ∧ s.vz = m.vz)
    ?_ m ⟨rfl, rfl, rfl, rfl, rfl⟩ ndata
  intro j s hs
  obtain ⟨h1, h2, h3, h4, h5⟩ := calcEREzLBody_inputs Phi j s
  exact ⟨h1.trans hs.1, h2.trans hs.2.1, h3.trans hs.2.2.1, h4.trans hs.2.2.2.1,
    h5.trans hs.2.2.2.2⟩

theorem calcEREzL_outputs (Phi : α → α → α) (ndata : Nat) (m : EnergyMem α) (ii : Nat)
    (hii : ii < ndata) :
    (calcEREzL ndata m Phi).ER ii
        = Phi (m.R ii) 0 + 1 / 2 * m.vR ii * m.vR ii + 1 / 2 * m.vT ii * m.vT ii ∧
    (calcEREzL ndata m Phi).Ez ii
        = evaluateVerticalPotentials Phi (m.R ii) (m.z ii) + 1 / 2 * m.vz ii * m.vz ii ∧
    (calcEREzL ndata m Phi).Lz ii = m.R ii * m.vT ii := by
  have key := forLoop_at (calcEREzLBody Phi)
    (fun s => s.R = m.R ∧ s.vR = m.vR ∧ s.vT = m.vT ∧ s.z = m.z ∧ s.vz = m.vz)
    (fun s => s.ER ii
        = Phi (m.R ii) 0 + 1 / 2 * m.vR ii * m.vR ii + 1 / 2 * m.vT ii * m.vT ii ∧
      s.Ez ii = evaluateVerticalPotentials Phi (m.R ii) (m.z ii) + 1 / 2 * m.vz ii * m.vz ii ∧
      s.Lz ii = m.R ii * m.vT ii) ii ?_ ?_ ?_ m ⟨rfl, rfl, rfl, rfl, rfl⟩ ndata
  · exact key.2 hii
  · intro j s _ hs
    exact hs
  · rintro s ⟨h1, h2, h3, h4, h5⟩
    simp [calcEREzLBody, h1, h2, h3, h4, h5]
  · intro j s hj hs
    have hne : ii ≠ j := fun h => hj h.symm
    simpa [calcEREzLBody, Function.update_noteq hne] using hs

/-! ## calcZmax -/

theorem expandZ_trace (F : α → α) (ii : Nat) :
    ∀ (fuel : Nat) (lo hi : α) (tr : List (Event α)) (r : α × α × List (Event α)),
      expandZ F ii fuel lo hi tr = some r → ∀ e ∈ r.2.2, e ∈ tr ∨ e.idx = ii := by
  intro fuel
  induction fuel with
  | zero => intro lo hi tr r h; simp [expandZ] at h
  | succ fuel ih =>
    intro lo hi tr r h e he
    simp only [expandZ] at h
    split at h
    · rcases ih _ _ _ r h e he with h1 | h1
      · rcases List.mem_append.mp h1 with h2 | h2
        · exact Or.inl h2
        · right
          simp only [List.mem_singleton] at h2
          subst h2
          rfl
      · exact Or.inr h1
    · simp only [Option.some.injEq] at h
      subst h
      exact Or.inl he

/-- On exit of the expansion loop of `calcZmax` the function is negative at the
lower bound. -/
theorem expandZ_exit (F : α → α) (ii : Nat) :
    ∀ (fuel : Nat) (lo hi : α) (tr : List (Event α)) (r : α × α × List (Event α)),
      expandZ F ii fuel lo hi tr = some r → F r.1 < 0 := by
  intro fuel
  induction fuel with
  | zero => intro lo hi tr r h; simp [expandZ] at h
  | succ fuel ih =>
    intro lo hi tr r h
    simp only [expandZ] at h
    split at h
    · exact ih _ _ _ r h
    · rename_i hneg
      simp only [Option.some.injEq] at h
      subst h
      exact not_le.mp hneg

theorem calcZmaxBody_turning {σ : Type} (S : Fsolver α σ) (Phi : α → α → α) (fuel : Nat)
    (z R Ez : Nat → α) (ii : Nat) (st : ZmaxState α σ)
    (h : |JzAdiabaticIntegrandSquared Phi (z ii) { Ez := Ez ii, R := R ii }| < eps7) :
    calcZmaxBody S Phi fuel z R Ez ii st
      = some { st with zmax := Function.update st.zmax ii (z ii) } := by
  simp only [calcZmaxBody]
  rw [if_pos h]

theorem calcZmaxBody_frame {σ : Type} (S : Fsolver α σ) (Phi : α → α → α) (fuel : Nat)
    (z R Ez : Nat → α) (j : Nat) (st st1 : ZmaxState α σ)
    (h : calcZmaxBody S Phi fuel z R Ez j st = some st1) :
    (∀ i, i ≠ j → st1.zmax i = st.zmax i) ∧ (∀ e ∈ st1.trace, e ∈ st.trace ∨ e.idx = j) := by
  simp only [calcZmaxBody] at h
  split at h
  · simp only [Option.some.injEq] at h
    subst h
    exact ⟨fun i hi => Function.update_noteq hi _ _, fun e he => Or.inl he⟩
  · split at h
    · simp at h
    · rename_i z_lo z_hi tr hex
      have htr := expandZ_trace _ _ _ _ _ _ _ hex
      have hmem : ∀ e ∈ tr ++ [Event.fsolverSet j z_lo z_hi], e ∈ st.trace ∨ e.idx = j := by
        intro e he
        rcases List.mem_append.mp he with h1 | h1
        · exact htr e h1
        · right
          simp only [List.mem_singleton] at h1
          subst h1
          rfl
      split at h
      · simp only [Option.some.injEq] at h
        subst h
        exact ⟨fun i hi => Function.update_noteq hi _ _, hmem⟩
      · simp only [Option.some.injEq] at h
        subst h
        exact ⟨fun i hi => Function.update_noteq hi _ _, hmem⟩

/-! ## calcJR and calcJz -/

theorem calcJRBody_spec (sqrt sinh : α → α) (PhiUV : α → α → α → α) (T : GLTable α)
    (umin umax E Lz I3U : Nat → α) (delta : α) (u0 sinh2u0 v0 sin2v0 potu0v0 : Nat → α)
    (j : Nat) (st : ActionState α) :
    (∀ i, i ≠ j →
      (calcJRBody sqrt sinh PhiUV T umin umax E Lz I3U delta u0 sinh2u0 v0 sin2v0 potu0v0
        j st).j i = st.j i) ∧
    ((umin j = turnSentinel ∨ umax j = turnSentinel) →
      calcJRBody sqrt sinh PhiUV T umin umax E Lz I3U delta u0 sinh2u0 v0 sin2v0 potu0v0 j st
        = { st with j := Function.update st.j j (some actionSentinel) }) ∧
    (¬ (umin j = turnSentinel ∨ umax j = turnSentinel) →
      (umax j - umin j) / umax j < eps6 →
      calcJRBody sqrt sinh PhiUV T umin umax E Lz I3U delta u0 sinh2u0 v0 sin2v0 potu0v0 j st
        = { st with j := Function.update st.j j (some 0) }) ∧
    (¬ (umin j = turnSentinel ∨ umax j = turnSentinel) →
      ¬ (umax j - umin j) / umax j < eps6 →
      calcJRBody sqrt sinh PhiUV T umin umax E Lz I3U delta u0 sinh2u0 v0 sin2v0 potu0v0 j st
        = { j := Function.update st.j j
              (nanDiv (nanMul (nanMul
                (gsl_integration_glfixed
                  (fun u => JRStaeckelIntegrand sqrt sinh PhiUV u
                    (JRStaeckelArg.ofPoint E Lz I3U delta u0 sinh2u0 v0 sin2v0 potu0v0 j))
                  (umin j) (umax j) T) (libmSqrt sqrt 2)) (some delta)) (some M_PI)),
            trace := st.trace ++ [Event.glfixed j (umin j) (umax j)] }) := by
  refine ⟨fun i hi => ?_, fun h => ?_, fun h1 h2 => ?_, fun h1 h2 => ?_⟩
  · unfold calcJRBody
    split_ifs <;> exact Function.update_noteq hi _ _
  · unfold calcJRBody
    rw [if_pos h]
  · unfold calcJRBody
    rw [if_neg h1, if_pos h2]
  · unfold calcJRBody
    rw [if_neg h1, if_neg h2]

theorem calcJzBody_spec (sqrt : α → α) (JzSq : α → JzStaeckelArg α → α) (T : GLTable α)
    (vmin E Lz I3V : Nat → α) (delta : α) (u0 cosh2u0 sinh2u0 potupi2 : Nat → α)
    (j : Nat) (st : ActionState α) :
    (∀ i, i ≠ j →
      (calcJzBody sqrt JzSq T vmin E Lz I3V delta u0 cosh2u0 sinh2u0 potupi2 j st).j i
        = st.j i) ∧
    (vmin j = turnSentinel →
      calcJzBody sqrt JzSq T vmin E Lz I3V delta u0 cosh2u0 sinh2u0 potupi2 j st
        = { st with j := Function.update st.j j (some actionSentinel) }) ∧
    (¬ vmin j = turnSentinel → (1 / 2 * M_PI - vmin j) / M_PI * 2 < eps6 →
      calcJzBody sqrt JzSq T vmin E Lz I3V delta u0 cosh2u0 sinh2u0 potupi2 j st
        = { st with j := Function.update st.j j (some 0) }) ∧
    (¬ vmin j = turnSentinel → ¬ (1 / 2 * M_PI - vmin j) / M_PI * 2 < eps6 →
      calcJzBody sqrt JzSq T vmin E Lz I3V delta u0 cosh2u0 sinh2u0 potupi2 j st
        = { j := Function.update st.j j
              (nanDiv (nanMul (nanMul (nanMul
                (gsl_integration_glfixed
                  (fun v => JzStaeckelIntegrand sqrt JzSq v
                    (JzStaeckelArg.ofPoint E Lz I3V delta u0 cosh2u0 sinh2u0 potupi2 j))
                  (vmin j) (M_PI / 2) T) (some 2)) (libmSqrt sqrt 2)) (some delta))
                (some M_PI)),
            trace := st.trace ++ [Event.glfixed j (vmin j) (M_PI / 2)] }) := by
  refine ⟨fun i hi => ?_, fun h => ?_, fun h1 h2 => ?_, fun h1 h2 => ?_⟩
  · unfold calcJzBody
    split_ifs <;> exact Function.update_noteq hi _ _
  · unfold calcJzBody
    rw [if_pos h]
  · unfold calcJzBody
    rw [if_neg h1, if_pos h2]
  · unfold calcJzBody
    rw [if_neg h1, if_neg h2]

/-- Events of a quadrature loop body: old ones, or one call for the current
point whose bounds are the point's boundaries, none of them the sentinel. -/
theorem calcJRBody_trace (sqrt sinh : α → α) (PhiUV : α → α → α → α) (T : GLTable α)
    (umin umax E Lz I3U : Nat → α) (delta : α) (u0 sinh2u0 v0 sin2v0 potu0v0 : Nat → α)
    (j : Nat) (st : ActionState α) :
    ∀ e ∈ (calcJRBody sqrt sinh PhiUV T umin umax E Lz I3U delta u0 sinh2u0 v0 sin2v0 potu0v0
        j st).trace,
      e ∈ st.trace ∨ (e = Event.glfixed j (umin j) (umax j) ∧ umin j ≠ turnSentinel ∧
        umax j ≠ turnSentinel ∧ ¬ (umax j - umin j) / umax j < eps6) := by
  intro e he
  have hs := calcJRBody_spec sqrt sinh PhiUV T umin umax E Lz I3U delta u0 sinh2u0 v0 sin2v0
    potu0v0 j st
  by_cases h1 : umin j = turnSentinel ∨ umax j = turnSentinel
  · rw [hs.2.1 h1] at he
    exact Or.inl he
  · by_cases h2 : (umax j - umin j) / umax j < eps6
    · rw [hs.2.2.1 h1 h2] at he
      exact Or.inl he
    · rw [hs.2.2.2 h1 h2] at he
      rcases List.mem_append.mp he with h3 | h3
      · exact Or.inl h3
      · right
        simp only [List.mem_singleton] at h3
        exact ⟨h3, fun h => h1 (Or.inl h), fun h => h1 (Or.inr h), h2⟩

theorem calcJzBody_trace (sqrt : α → α) (JzSq : α → JzStaeckelArg α → α) (T : GLTable α)
    (vmin E Lz I3V : Nat → α) (delta : α) (u0 cosh2u0 sinh2u0 potupi2 : Nat → α)
    (j : Nat) (st : ActionState α) :
    ∀ e ∈ (calcJzBody sqrt JzSq T vmin E Lz I3V delta u0 cosh2u0 sinh2u0 potupi2 j st).trace,
      e ∈ st.trace ∨ (e = Event.glfixed j (vmin j) (M_PI / 2) ∧ vmin j ≠ turnSentinel ∧
        ¬ (1 / 2 * M_PI - vmin j) / M_PI * 2 < eps6) := by
  intro e he
  have hs := calcJzBody_spec sqrt JzSq T vmin E Lz I3V delta u0 cosh2u0 sinh2u0 potupi2 j st
  by_cases h1 : vmin j = turnSentinel
  · rw [hs.2.1 h1] at he
    exact Or.inl he
  · by_cases h2 : (1 / 2 * M_PI - vmin j) / M_PI * 2 < eps6
    · rw [hs.2.2.1 h1 h2] at he
      exact Or.inl he
    · rw [hs.2.2.2 h1 h2] at he
      rcases List.mem_append.mp he with h3 | h3
      · exact Or.inl h3
      · right
        simp only [List.mem_singleton] at h3
        exact ⟨h3, h1, h2⟩

theorem M_PI_pos : (0 : α) < M_PI := by
  unfold M_PI
  positivity

theorem M_PI_half_ne_sentinel : (M_PI / 2 : α) ≠ turnSentinel := by
  have h1 : (0 : α) < M_PI / 2 := by have := M_PI_pos (α := α); positivity
  have h2 : (turnSentinel : α) < 0 := by
    unfold turnSentinel
    rw [neg_lt_zero]
    positivity
  exact ne_of_gt (h2.trans h1)

theorem actionSentinel_pos : (0 : α) < actionSentinel := by
  unfold actionSentinel
  positivity

theorem eps6_pos : (0 : α) < eps6 := by
  unfold eps6
  positivity

theorem eps7_pos : (0 : α) < eps7 := by
  unfold eps7
  positivity

theorem eps8_pos : (0 : α) < eps8 := by
  unfold eps8
  positivity

theorem libmSqrt_of_nonneg (sqrt : α → α) (x : α) (hx : 0 ≤ x) :
    libmSqrt sqrt x = some (sqrt x) := by
  unfold libmSqrt
  rw [if_neg (not_lt.mpr hx)]

theorem libmSqrt_of_neg (sqrt : α → α) (x : α) (hx : x < 0) : libmSqrt sqrt x = none := by
  unfold libmSqrt
  rw [if_pos hx]

/-- The accumulation loop of the quadrature: from a non-negative start, adding
terms that are non-negative numbers gives a non-negative number. -/
theorem nanAdd_foldl_nonneg (term : Nat → Option α) :
    ∀ (l : List Nat) (init : Option α), (∃ s0, init = some s0 ∧ 0 ≤ s0) →
      (∀ i ∈ l, ∃ y, term i = some y ∧ 0 ≤ y) →
      ∃ s, l.foldl (fun s i => nanAdd s (term i)) init = some s ∧ 0 ≤ s := by
  intro l
  induction l with
  | nil => intro init h _; simpa using h
  | cons i l ih =>
    intro init hinit hterm
    obtain ⟨s0, rfl, hs0⟩ := hinit
    obtain ⟨y, hy, hy0⟩ := hterm i (List.mem_cons_self i l)
    rw [List.foldl_cons]
    apply ih
    · exact ⟨s0 + y, by simp [nanAdd, hy], add_nonneg hs0 hy0⟩
    · intro k hk
      exact hterm k (List.mem_cons_of_mem i hk)

/-- The accumulation loop of the quadrature returns NaN once it holds NaN. -/
theorem nanAdd_foldl_none (term : Nat → Option α) :
    ∀ l : List Nat, l.foldl (fun s i => nanAdd s (term i)) none = none := by
  intro l
  induction l with
  | nil => rfl
  | cons i l ih => rw [List.foldl_cons]; simpa [nanAdd] using ih

/-- The quadrature of an integrand whose values at the nodes are non-negative
numbers, over an interval of non-negative length and with non-negative
weights, is a non-negative number. -/
theorem gsl_integration_glfixed_nonneg (f : α → Option α) (a b : α) (t : GLTable α)
    (hf : ∀ u ∈ glfixedNodes a b t, ∃ y, f u = some y ∧ 0 ≤ y)
    (hw : ∀ i, i < (t.n + 1) / 2 → 0 ≤ t.w i) (hab : a ≤ b) :
    ∃ q, gsl_integration_glfixed f a b t = some q ∧ 0 ≤ q := by
  have hA : (0 : α) ≤ 1 / 2 * (b - a) := by
    have : (0 : α) ≤ b - a := sub_nonneg.mpr hab
    positivity
  have hterm : ∀ i, i < (t.n + 1) / 2 →
      1 / 2 * (b + a) + 1 / 2 * (b - a) * t.x i ∈ glfixedNodes a b t →
      1 / 2 * (b + a) - 1 / 2 * (b - a) * t.x i ∈ glfixedNodes a b t →
      ∃ y, nanMul (some (t.w i))
        (nanAdd (f (1 / 2 * (b + a) + 1 / 2 * (b - a) * t.x i))
          (f (1 / 2 * (b + a) - 1 / 2 * (b - a) * t.x i))) = some y ∧ 0 ≤ y := by
    intro i hi h1 h2
    obtain ⟨y1, hy1, hy10⟩ := hf _ h1
    obtain ⟨y2, hy2, hy20⟩ := hf _ h2
    refine ⟨t.w i * (y1 + y2), ?_, mul_nonneg (hw i hi) (add_nonneg hy10 hy20)⟩
    rw [hy1, hy2]
    rfl
  unfold gsl_integration_glfixed
  by_cases hodd : t.n % 2 = 1
  · have hm : 0 < (t.n + 1) / 2 := by omega
    have hB : 1 / 2 * (b + a) ∈ glfixedNodes a b t := by
      unfold glfixedNodes
      rw [if_pos hodd]
      exact List.mem_cons_self _ _
    have hpair : ∀ i ∈ List.range' 1 ((t.n + 1) / 2 - 1),
        1 / 2 * (b + a) + 1 / 2 * (b - a) * t.x i ∈ glfixedNodes a b t ∧
        1 / 2 * (b + a) - 1 / 2 * (b - a) * t.x i ∈ glfixedNodes a b t := by
      intro i hi
      unfold glfixedNodes
      rw [if_pos hodd]
      constructor
      · exact List.mem_cons_of_mem _ (List.mem_flatMap.mpr ⟨i, hi, List.mem_cons_self _ _⟩)
      · exact List.mem_cons_of_mem _ (List.mem_flatMap.mpr
          ⟨i, hi, List.mem_cons_of_mem _ (List.mem_cons_self _ _)⟩)
    obtain ⟨yB, hyB, hyB0⟩ := hf _ hB
    obtain ⟨s, hs, hs0⟩ := nanAdd_foldl_nonneg
      (fun i => nanMul (some (t.w i))
        (nanAdd (f (1 / 2 * (b + a) + 1 / 2 * (b - a) * t.x i))
          (f (1 / 2 * (b + a) - 1 / 2 * (b - a) * t.x i))))
      (List.range' 1 ((t.n + 1) / 2 - 1)) (nanMul (some (t.w 0)) (f (1 / 2 * (b + a))))
      ⟨t.w 0 * yB, by rw [hyB]; rfl, mul_nonneg (hw 0 hm) hyB0⟩
      (fun i hi => by
        have hlt : i < (t.n + 1) / 2 := by
          have := (List.mem_range'_1.mp hi).2
          omega
        exact hterm i hlt (hpair i hi).1 (hpair i hi).2)
    refine ⟨1 / 2 * (b - a) * s, ?_, mul_nonneg hA hs0⟩
    simp only [hodd, if_true]
    rw [hs]
    rfl
  · have hpair : ∀ i ∈ List.range ((t.n + 1) / 2),
        1 / 2 * (b + a) + 1 / 2 * (b - a) * t.x i ∈ glfixedNodes a b t ∧
        1 / 2 * (b + a) - 1 / 2 * (b - a) * t.x i ∈ glfixedNodes a b t := by
      intro i hi
      unfold glfixedNodes
      rw [if_neg hodd]
      constructor
      · exact List.mem_flatMap.mpr ⟨i, hi, List.mem_cons_self _ _⟩
      · exact List.mem_flatMap.mpr ⟨i, hi, List.mem_cons_of_mem _ (List.mem_cons_self _ _)⟩
    obtain ⟨s, hs, hs0⟩ := nanAdd_foldl_nonneg
      (fun i => nanMul (some (t.w i))
        (nanAdd (f (1 / 2 * (b + a) + 1 / 2 * (b - a) * t.x i))
          (f (1 / 2 * (b + a) - 1 / 2 * (b - a) * t.x i))))
      (List.range ((t.n + 1) / 2)) (some 0) ⟨0, rfl, le_rfl⟩
      (fun i hi => hterm i (List.mem_range.mp hi) (hpair i hi).1 (hpair i hi).2)
    refine ⟨1 / 2 * (b - a) * s, ?_, mul_nonneg hA hs0⟩
    simp only [hodd, if_false]
    rw [hs]
    rfl

/-! ## calcUminUmax -/

/-- Every quadrature call recorded by `calcJR` belongs to a point whose
boundaries are not the sentinel and whose normalised gap is not below `1e-6`,
and its bounds are that point's boundaries. -/
theorem calcJR_trace (sqrt sinh : α → α) (PhiUV : α → α → α → α) (T : GLTable α) (ndata : Nat)
    (jr : Nat → Option α) (umin umax E Lz I3U : Nat → α) (delta : α)
    (u0 sinh2u0 v0 sin2v0 potu0v0 : Nat → α) :
    ∀ e ∈ (calcJR sqrt sinh PhiUV T ndata jr umin umax E Lz I3U delta u0 sinh2u0 v0 sin2v0
        potu0v0).trace,
      e = Event.glfixed e.idx (umin e.idx) (umax e.idx) ∧ umin e.idx ≠ turnSentinel ∧
        umax e.idx ≠ turnSentinel ∧ ¬ (umax e.idx - umin e.idx) / umax e.idx < eps6 := by
  refine forLoop_inv
    (calcJRBody sqrt sinh PhiUV T umin umax E Lz I3U delta u0 sinh2u0 v0 sin2v0 potu0v0)
    (fun s => ∀ e ∈ s.trace,
      e = Event.glfixed e.idx (umin e.idx) (umax e.idx) ∧ umin e.idx ≠ turnSentinel ∧
        umax e.idx ≠ turnSentinel ∧ ¬ (umax e.idx - umin e.idx) / umax e.idx < eps6)
    ?_ { j := jr, trace := [] } (by simp) ndata
  intro j s hs e he
  rcases calcJRBody_trace sqrt sinh PhiUV T umin umax E Lz I3U delta u0 sinh2u0 v0 sin2v0
    potu0v0 j s e he with h1 | ⟨h1, h2, h3, h4⟩
  · exact hs e h1
  · subst h1
    exact ⟨rfl, h2, h3, h4⟩

theorem calcJz_trace (sqrt : α → α) (JzSq : α → JzStaeckelArg α → α) (T : GLTable α)
    (ndata : Nat) (jz : Nat → Option α) (vmin E Lz I3V : Nat → α) (delta : α)
    (u0 cosh2u0 sinh2u0 potupi2 : Nat → α) :
    ∀ e ∈ (calcJz sqrt JzSq T ndata jz vmin E Lz I3V delta u0 cosh2u0 sinh2u0 potupi2).trace,
      e = Event.glfixed e.idx (vmin e.idx) (M_PI / 2) ∧ vmin e.idx ≠ turnSentinel ∧
        ¬ (1 / 2 * M_PI - vmin e.idx) / M_PI * 2 < eps6 := by
  refine forLoop_inv
    (calcJzBody sqrt JzSq T vmin E Lz I3V delta u0 cosh2u0 sinh2u0 potupi2)
    (fun s => ∀ e ∈ s.trace,
      e = Event.glfixed e.idx (vmin e.idx) (M_PI / 2) ∧ vmin e.idx ≠ turnSentinel ∧
        ¬ (1 / 2 * M_PI - vmin e.idx) / M_PI * 2 < eps6)
    ?_ { j := jz, trace := [] } (by simp) ndata
  intro j s hs e he
  rcases calcJzBody_trace sqrt JzSq T vmin E Lz I3V delta u0 cosh2u0 sinh2u0 potupi2 j s e he
    with h1 | ⟨h1, h2, h3⟩
  · exact hs e h1
  · subst h1
    exact ⟨rfl, h2, h3⟩

/-- The value `calcJR` leaves in `jr[ii]` is the one its loop body stores for
the point `ii`. -/
theorem calcJR_value (sqrt sinh : α → α) (PhiUV : α → α → α → α) (T : GLTable α) (ndata : Nat)
    (jr : Nat → Option α) (umin umax E Lz I3U : Nat → α) (delta : α)
    (u0 sinh2u0 v0 sin2v0 potu0v0 : Nat → α)
    (ii : Nat) (hii : ii < ndata) :
    (calcJR sqrt sinh PhiUV T ndata jr umin umax E Lz I3U delta u0 sinh2u0 v0 sin2v0
        potu0v0).j ii
      = (calcJRBody sqrt sinh PhiUV T umin umax E Lz I3U delta u0 sinh2u0 v0 sin2v0 potu0v0 ii
          { j := jr, trace := [] }).j ii := by
  have key := forLoop_at
    (calcJRBody sqrt sinh PhiUV T umin umax E Lz I3U delta u0 sinh2u0 v0 sin2v0 potu0v0)
    (fun _ => True)
    (fun s => s.j ii
      = (calcJRBody sqrt sinh PhiUV T umin umax E Lz I3U delta u0 sinh2u0 v0 sin2v0 potu0v0 ii
          { j := jr, trace := [] }).j ii) ii ?_ ?_ ?_ { j := jr, trace := [] } trivial ndata
  · exact key.2 hii
  · intros; trivial
  · intro s _
    unfold calcJRBody
    split_ifs <;> simp
  · intro j s hj hs
    rw [(calcJRBody_spec sqrt sinh PhiUV T umin umax E Lz I3U delta u0 sinh2u0 v0 sin2v0
      potu0v0 j s).1 ii (fun h => hj h.symm)]
    exact hs

theorem calcJz_value (sqrt : α → α) (JzSq : α → JzStaeckelArg α → α) (T : GLTable α)
    (ndata : Nat) (jz : Nat → Option α) (vmin E Lz I3V : Nat → α) (delta : α)
    (u0 cosh2u0 sinh2u0 potupi2 : Nat → α) (ii : Nat) (hii : ii < ndata) :
    (calcJz sqrt JzSq T ndata jz vmin E Lz I3V delta u0 cosh2u0 sinh2u0 potupi2).j ii
      = (calcJzBody sqrt JzSq T vmin E Lz I3V delta u0 cosh2u0 sinh2u0 potupi2 ii
          { j := jz, trace := [] }).j ii := by
  have key := forLoop_at
    (calcJzBody sqrt JzSq T vmin E Lz I3V delta u0 cosh2u0 sinh2u0 potupi2)
    (fun _ => True)
    (fun s => s.j ii
      = (calcJzBody sqrt JzSq T vmin E Lz I3V delta u0 cosh2u0 sinh2u0 potupi2 ii
          { j := jz, trace := [] }).j ii) ii ?_ ?_ ?_ { j := jz, trace := [] } trivial ndata
  · exact key.2 hii
  · intros; trivial
  · intro s _
    unfold calcJzBody
    split_ifs <;> simp
  · intro j s hj hs
    rw [(calcJzBody_spec sqrt JzSq T vmin E Lz I3V delta u0 cosh2u0 sinh2u0 potupi2 j s).1 ii
      (fun h => hj h.symm)]
    exact hs

/-! ## The energies and the turning-point shortcut -/

/-- C6. For every potential `Phi` and every index `ii < ndata`, `calcEREzL`
stores `ER[ii] = Phi(R,0) + (vR^2 + vT^2)/2`,
`Ez[ii] = (Phi(R,z) - Phi(R,0)) + vz^2/2` and `Lz[ii] = R*vT`, computed from the
`ii`-th inputs; the vertical potential `evaluateVerticalPotentials` vanishes at
`z = 0`; and the five input arrays are unchanged. -/
theorem calcEREzL_energies (Phi : α → α → α) (ndata : Nat) (m : EnergyMem α) (ii : Nat)
    (hii : ii < ndata) :
    (calcEREzL ndata m Phi).ER ii = Phi (m.R ii) 0 + ((m.vR ii) ^ 2 + (m.vT ii) ^ 2) / 2 ∧
    (calcEREzL ndata m Phi).Ez ii
      = (Phi (m.R ii) (m.z ii) - Phi (m.R ii) 0) + (m.vz ii) ^ 2 / 2 ∧
    (calcEREzL ndata m Phi).Lz ii = m.R ii * m.vT ii ∧
    (∀ R : α, evaluateVerticalPotentials Phi R 0 = 0) ∧
    (calcEREzL ndata m Phi).R = m.R ∧ (calcEREzL ndata m Phi).vR = m.vR ∧
    (calcEREzL ndata m Phi).vT = m.vT ∧ (calcEREzL ndata m Phi).z = m.z ∧
    (calcEREzL ndata m Phi).vz = m.vz := by
  obtain ⟨h1, h2, h3⟩ := calcEREzL_outputs Phi ndata m ii hii
  refine ⟨?_, ?_, h3, fun R => ?_, calcEREzL_inputs Phi ndata m⟩
  · rw [h1]; ring
  · rw [h2]; unfold evaluateVerticalPotentials; ring
  · unfold evaluateVerticalPotentials; ring

/-- A concrete instance: one point `R = 2, vR = 1, vT = 3, z = 1, vz = 2` in the
harmonic potential with `k = 1`. -/
theorem calcEREzL_energies_witness :
    (calcEREzL 1
      ({ R := fun _ => 2, vR := fun _ => 1, vT := fun _ => 3, z := fun _ => 1,
         vz := fun _ => 2, ER := fun _ => 0, Ez := fun _ => 0, Lz := fun _ => 0 } :
        EnergyMem ℚ) (harmonicPhi 1)).ER 0 = 5 ∧
    (calcEREzL 1
      ({ R := fun _ => 2, vR := fun _ => 1, vT := fun _ => 3, z := fun _ => 1,
         vz := fun _ => 2, ER := fun _ => 0, Ez := fun _ => 0, Lz := fun _ => 0 } :
        EnergyMem ℚ) (harmonicPhi 1)).Ez 0 = 5 / 2 ∧
    (calcEREzL 1
      ({ R := fun _ => 2, vR := fun _ => 1, vT := fun _ => 3, z := fun _ => 1,
         vz := fun _ => 2, ER := fun _ => 0, Ez := fun _ => 0, Lz := fun _ => 0 } :
        EnergyMem ℚ) (harmonicPhi 1)).Lz 0 = 6 := by
  obtain ⟨h1, h2, h3, _⟩ := calcEREzL_energies (harmonicPhi (1 : ℚ)) 1
    { R := fun _ => 2, vR := fun _ => 1, vT := fun _ => 3, z := fun _ => 1,
      vz := fun _ => 2, ER := fun _ => 0, Ez := fun _ => 0, Lz := fun _ => 0 } 0 (by decide)
  refine ⟨?_, ?_, ?_⟩
  · rw [h1]; norm_num [harmonicPhi]
  · rw [h2]; norm_num [harmonicPhi]
  · rw [h3]; norm_num

/-- C7. If the vertical energy of point `ii` equals the vertical potential at
its height, `Ez = Vvert(R,z)`, then the effective-force function has magnitude
below `1e-7` at `z`; the loop body of `calcZmax` for that point returns for any
fuel and changes nothing but `zmax[ii]`, which becomes `z[ii]` (no expansion
step and no root-finder call is added to the trace, the solver workspace is
untouched); whenever the batch call returns, `zmax[ii] = z[ii]` and the trace
holds no event of point `ii`.  In the harmonic scenario `V = k z^2/2`,
`Ez = k z0^2/2`, start `z0`, the one-point call returns `zmax = z0`. -/
theorem calcZmax_at_turning_point {σ : Type} (S : Fsolver α σ) (Phi : α → α → α)
    (fuel ndata : Nat) (zmax z vz R Ez : Nat → α) (ii : Nat) (hii : ii < ndata)
    (hEz : Ez ii = evaluateVerticalPotentials Phi (R ii) (z ii)) :
    |JzAdiabaticIntegrandSquared Phi (z ii) { Ez := Ez ii, R := R ii }| < eps7 ∧
    (∀ st : ZmaxState α σ, calcZmaxBody S Phi fuel z R Ez ii st
      = some { zmax := Function.update st.zmax ii (z ii), s := st.s, trace := st.trace }) ∧
    (∀ out, calcZmax S Phi fuel ndata zmax z vz R Ez = some out →
      out.zmax ii = z ii ∧ ∀ e ∈ out.trace, e.idx ≠ ii) ∧
    (∀ k z0 : α, ∃ out,
      calcZmax S (harmonicPhi k) fuel 1 zmax (fun _ => z0) vz R (fun _ => k * z0 ^ 2 / 2)
        = some out ∧ out.zmax 0 = z0 ∧ out.trace = []) := by
  have hturn : |JzAdiabaticIntegrandSquared Phi (z ii) { Ez := Ez ii, R := R ii }| < eps7 := by
    simp only [JzAdiabaticIntegrandSquared, hEz, sub_self, abs_zero]
    exact eps7_pos
  refine ⟨hturn, fun st => calcZmaxBody_turning S Phi fuel z R Ez ii st hturn, ?_, ?_⟩
  · intro out hout
    have key := forLoopM_at (calcZmaxBody S Phi fuel z R Ez)
      (fun s => ∀ e ∈ s.trace, e.idx ≠ ii)
      (fun s => s.zmax ii = z ii ∧ ∀ e ∈ s.trace, e.idx ≠ ii) ii ?_ ?_ ?_
      { zmax := zmax, s := S.alloc, trace := [] } (by simp) ndata out hout
    · exact key.2 hii
    · intro j s s1 hj hb hs e he
      rcases (calcZmaxBody_frame S Phi fuel z R Ez j s s1 hb).2 e he with h1 | h1
      · exact hs e h1
      · rw [h1]; exact hj
    · intro s s1 hb hs
      rw [calcZmaxBody_turning S Phi fuel z R Ez ii s hturn] at hb
      simp only [Option.some.injEq] at hb
      subst hb
      exact ⟨by simp, hs⟩
    · intro j s s1 hj hb hs
      have hfr := calcZmaxBody_frame S Phi fuel z R Ez j s s1 hb
      refine ⟨by rw [hfr.1 ii (fun h => hj h.symm)]; exact hs.1, fun e he => ?_⟩
      rcases hfr.2 e he with h1 | h1
      · exact hs.2 e h1
      · rw [h1]; exact hj
  · intro k z0
    have h0 : |JzAdiabaticIntegrandSquared (harmonicPhi k) z0
        { Ez := k * z0 ^ 2 / 2, R := R 0 }| < eps7 := by
      have : JzAdiabaticIntegrandSquared (harmonicPhi k) z0
          { Ez := k * z0 ^ 2 / 2, R := R 0 } = 0 := by
        simp only [JzAdiabaticIntegrandSquared, evaluateVerticalPotentials, harmonicPhi]
        ring
      rw [this, abs_zero]
      exact eps7_pos
    refine ⟨{ zmax := Function.update zmax 0 z0, s := S.alloc, trace := [] }, ?_, by simp, rfl⟩
    simp only [calcZmax, forLoopM, Option.some_bind]
    exact calcZmaxBody_turning S (harmonicPhi k) fuel (fun _ => z0) R
      (fun _ => k * z0 ^ 2 / 2) 0 _ h0

/-- A concrete instance: the harmonic potential with `k = 1`, a point at height 1
with vertical energy `1/2`, and no fuel at all. -/
theorem calcZmax_at_turning_point_witness :
    calcZmaxBody (refSolver (α := ℚ)) (harmonicPhi 1) 0 (fun _ => 1) (fun _ => 1)
        (fun _ => 1 / 2) 0 { zmax := fun _ => 0, s := (0, 0), trace := [] }
      = some { zmax := Function.update (fun _ => 0) 0 1, s := (0, 0), trace := [] } :=
  (calcZmax_at_turning_point (refSolver (α := ℚ)) (harmonicPhi 1) 0 1 (fun _ => 0)
    (fun _ => 1) (fun _ => 0) (fun _ => 1) (fun _ => 1 / 2) 0 (by decide)
    (by norm_num [evaluateVerticalPotentials, harmonicPhi])).2.1
    { zmax := fun _ => 0, s := (0, 0), trace := [] }

/-! ## The action integrators -/

/-- C3. For every index `ii < ndata`: if `umin[ii]` or `umax[ii]` is `-9999.99`
then `calcJR` leaves `jr[ii] = 9999.99`, and if `vmin[ii]` is `-9999.99` then
`calcJz` leaves `jz[ii] = 9999.99`; in both cases the trace holds no quadrature
call for the point `ii`; and no quadrature call of either routine has
`-9999.99` as an integration bound. -/
theorem sentinel_propagation (sqrt sinh : α → α) (PhiUV : α → α → α → α)
    (JzSq : α → JzStaeckelArg α → α) (T : GLTable α) (ndata : Nat)
    (jr jz : Nat → Option α) (umin umax vmin E Lz I3U I3V : Nat → α) (delta : α)
    (u0 sinh2u0 cosh2u0 v0 sin2v0 potu0v0 potupi2 : Nat → α) (ii : Nat) (hii : ii < ndata) :
    ((umin ii = turnSentinel ∨ umax ii = turnSentinel) →
      (calcJR sqrt sinh PhiUV T ndata jr umin umax E Lz I3U delta u0 sinh2u0 v0 sin2v0
        potu0v0).j ii = some actionSentinel ∧
      ∀ e ∈ (calcJR sqrt sinh PhiUV T ndata jr umin umax E Lz I3U delta u0 sinh2u0 v0 sin2v0
        potu0v0).trace, e.idx ≠ ii) ∧
    (vmin ii = turnSentinel →
      (calcJz sqrt JzSq T ndata jz vmin E Lz I3V delta u0 cosh2u0 sinh2u0 potupi2).j ii
        = some actionSentinel ∧
      ∀ e ∈ (calcJz sqrt JzSq T ndata jz vmin E Lz I3V delta u0 cosh2u0 sinh2u0 potupi2).trace,
        e.idx ≠ ii) ∧
    (∀ e ∈ (calcJR sqrt sinh PhiUV T ndata jr umin umax E Lz I3U delta u0 sinh2u0 v0 sin2v0
        potu0v0).trace, e.bounds.1 ≠ turnSentinel ∧ e.bounds.2 ≠ turnSentinel) ∧
    (∀ e ∈ (calcJz sqrt JzSq T ndata jz vmin E Lz I3V delta u0 cosh2u0 sinh2u0 potupi2).trace,
      e.bounds.1 ≠ turnSentinel ∧ e.bounds.2 ≠ turnSentinel) := by
  have hR := calcJR_trace sqrt sinh PhiUV T ndata jr umin umax E Lz I3U delta u0 sinh2u0 v0
    sin2v0 potu0v0
  have hZ := calcJz_trace sqrt JzSq T ndata jz vmin E Lz I3V delta u0 cosh2u0 sinh2u0 potupi2
  refine ⟨fun h => ⟨?_, fun e he hidx => ?_⟩, fun h => ⟨?_, fun e he hidx => ?_⟩,
    fun e he => ?_, fun e he => ?_⟩
  · rw [calcJR_value sqrt sinh PhiUV T ndata jr umin umax E Lz I3U delta u0 sinh2u0 v0 sin2v0
        potu0v0 ii hii,
      (calcJRBody_spec sqrt sinh PhiUV T umin umax E Lz I3U delta u0 sinh2u0 v0 sin2v0
        potu0v0 ii _).2.1 h]
    simp
  · obtain ⟨_, h2, h3, _⟩ := hR e he
    rw [hidx] at h2 h3
    rcases h with h | h
    · exact h2 h
    · exact h3 h
  · rw [calcJz_value sqrt JzSq T ndata jz vmin E Lz I3V delta u0 cosh2u0 sinh2u0 potupi2 ii hii,
      (calcJzBody_spec sqrt JzSq T vmin E Lz I3V delta u0 cosh2u0 sinh2u0 potupi2 ii _).2.1 h]
    simp
  · obtain ⟨_, h2, _⟩ := hZ e he
    rw [hidx] at h2
    exact h2 h
  · obtain ⟨h1, h2, h3, _⟩ := hR e he
    rw [h1]
    exact ⟨h2, h3⟩
  · obtain ⟨h1, h2, _⟩ := hZ e he
    rw [h1]
    exact ⟨h2, M_PI_half_ne_sentinel⟩

/-- A concrete instance: a two-point batch whose first point carries the sentinel in
`umin` and in `vmin`. -/
theorem sentinel_propagation_witness :
    (calcJR (fun x : ℚ => x) (fun x => x) (fun _ _ _ => 0)
        { n := 2, x := fun _ => 1 / 2, w := fun _ => 1 } 2 (fun _ => some 0)
        (fun i => if i = 0 then turnSentinel else 1) (fun _ => 2) (fun _ => 0) (fun _ => 0)
        (fun _ => 0) 1 (fun _ => 0) (fun _ => 0) (fun _ => 0) (fun _ => 0)
        (fun _ => 0)).j 0 = some actionSentinel ∧
    (calcJz (fun x : ℚ => x) (fun _ _ => 0)
        { n := 2, x := fun _ => 1 / 2, w := fun _ => 1 } 2 (fun _ => some 0)
        (fun i => if i = 0 then turnSentinel else 1) (fun _ => 0) (fun _ => 0)
        (fun _ => 0) 1 (fun _ => 0) (fun _ => 0) (fun _ => 0) (fun _ => 0)).j 0
      = some actionSentinel := by
  have h := sentinel_propagation (fun x : ℚ => x) (fun x => x) (fun _ _ _ => 0)
    (fun _ _ => 0) { n := 2, x := fun _ => 1 / 2, w := fun _ => 1 } 2 (fun _ => some 0)
    (fun _ => some 0)
    (fun i => if i = 0 then turnSentinel else 1) (fun _ => 2)
    (fun i => if i = 0 then turnSentinel else 1) (fun _ => 0) (fun _ => 0)
    (fun _ => 0) (fun _ => 0) 1 (fun _ => 0) (fun _ => 0) (fun _ => 0) (fun _ => 0)
    (fun _ => 0) (fun _ => 0) (fun _ => 0) 0 (by decide)
  exact ⟨(h.1 (Or.inl (by simp))).1, (h.2.1 (by simp)).1⟩

/-- The accumulation loop of the quadrature returns NaN when one of its terms
is NaN. -/
theorem nanAdd_foldl_of_none (term : Nat → Option α) :
    ∀ (l : List Nat) (init : Option α), (∃ i ∈ l, term i = none) →
      l.foldl (fun s i => nanAdd s (term i)) init = none := by
  intro l
  induction l with
  | nil => intro init h; obtain ⟨i, hi, _⟩ := h; simp at hi
  | cons k l ih =>
    intro init h
    rw [List.foldl_cons]
    obtain ⟨i, hi, hnone⟩ := h
    rcases List.mem_cons.mp hi with rfl | hmem
    · rw [hnone]
      have : nanAdd init none = none := by
        cases init <;> rfl
      rw [this]
      exact nanAdd_foldl_none term l
    · exact ih _ ⟨i, hmem, hnone⟩

/-- A NaN value of the integrand at one quadrature node makes the result of
`gsl_integration_glfixed` NaN. -/
theorem gsl_integration_glfixed_nan (f : α → Option α) (a b : α) (t : GLTable α)
    (h : ∃ u ∈ glfixedNodes a b t, f u = none) :
    gsl_integration_glfixed f a b t = none := by
  obtain ⟨u, hu, hnone⟩ := h
  have hterm : ∀ i, (u = 1 / 2 * (b + a) + 1 / 2 * (b - a) * t.x i ∨
      u = 1 / 2 * (b + a) - 1 / 2 * (b - a) * t.x i) →
      nanMul (some (t.w i))
        (nanAdd (f (1 / 2 * (b + a) + 1 / 2 * (b - a) * t.x i))
          (f (1 / 2 * (b + a) - 1 / 2 * (b - a) * t.x i))) = none := by
    intro i hi
    rcases hi with hi | hi
    · rw [← hi, hnone]
      rfl
    · rw [← hi, hnone]
      cases f (1 / 2 * (b + a) + 1 / 2 * (b - a) * t.x i) <;> rfl
  have hpair : ∀ i, u ∈ [1 / 2 * (b + a) + 1 / 2 * (b - a) * t.x i,
      1 / 2 * (b + a) - 1 / 2 * (b - a) * t.x i] →
      (u = 1 / 2 * (b + a) + 1 / 2 * (b - a) * t.x i ∨
        u = 1 / 2 * (b + a) - 1 / 2 * (b - a) * t.x i) := by
    intro i hi
    rcases List.mem_cons.mp hi with h1 | h1
    · exact Or.inl h1
    · exact Or.inr (List.mem_singleton.mp h1)
  unfold glfixedNodes at hu
  unfold gsl_integration_glfixed
  by_cases hodd : t.n % 2 = 1
  · rw [if_pos hodd] at hu
    simp only [hodd, if_true]
    rcases List.mem_cons.mp hu with hB | hrest
    · rw [← hB, hnone]
      have : nanMul (some (t.w 0)) (none : Option α) = none := rfl
      rw [this, nanAdd_foldl_none]
      rfl
    · obtain ⟨i, hi, hmem⟩ := List.mem_flatMap.mp hrest
      rw [nanAdd_foldl_of_none _ _ _ ⟨i, hi, hterm i (hpair i hmem)⟩]
      rfl
  · rw [if_neg hodd] at hu
    simp only [hodd, if_false]
    obtain ⟨i, hi, hmem⟩ := List.mem_flatMap.mp hu
    rw [nanAdd_foldl_of_none _ _ _ ⟨i, hi, hterm i (hpair i hmem)⟩]
    rfl

/-- C5 as stated fails.  Real arithmetic, the real `sqrt` and `sinh`, the
two-point Gauss-Legendre rule (weight 1), `delta = 1 >= 0`, one point with
`umin = 1`, `umax = 2 > 0`, `E = Lz = I3U = 0` and `evaluatePotentialsUV = +1`:
the squared integrand is `-sinh(u)^2`, negative at both nodes, `sqrt` returns
NaN there, and `calcJR` stores NaN in `jr[0]`: a value that is neither
`9999.99` nor `>= 0`. -/
theorem calcJR_stores_nan :
    (0 : ℝ) ≤ 1 ∧
    (∀ i : Nat, (0 : ℝ) ≤
      (GLTable.mk 2 (fun _ => 5773502691896257 / 10000000000000000) (fun _ => 1)).w i) ∧
    (0 : ℝ) < 2 ∧
    (∀ u ∈ glfixedNodes (1 : ℝ) 2
        { n := 2, x := fun _ => 5773502691896257 / 10000000000000000, w := fun _ => 1 },
      JRStaeckelIntegrandSquared Real.sinh (fun _ _ _ => 1) u
        (JRStaeckelArg.ofPoint (fun _ => 0) (fun _ => 0) (fun _ => 0) 1 (fun _ => 0)
          (fun _ => 0) (fun _ => 0) (fun _ => 0) (fun _ => 0) 0) < 0) ∧
    (calcJR Real.sqrt Real.sinh (fun _ _ _ => 1)
        { n := 2, x := fun _ => 5773502691896257 / 10000000000000000, w := fun _ => 1 } 1
        (fun _ => some 0) (fun _ => 1) (fun _ => 2) (fun _ => 0) (fun _ => 0) (fun _ => 0) 1
        (fun _ => 0) (fun _ => 0) (fun _ => 0) (fun _ => 0) (fun _ => 0)).j 0 = none ∧
    ¬ ((calcJR Real.sqrt Real.sinh (fun _ _ _ => 1)
          { n := 2, x := fun _ => 5773502691896257 / 10000000000000000, w := fun _ => 1 } 1
          (fun _ => some 0) (fun _ => 1) (fun _ => 2) (fun _ => 0) (fun _ => 0) (fun _ => 0) 1
          (fun _ => 0) (fun _ => 0) (fun _ => 0) (fun _ => 0) (fun _ => 0)).j 0
        = some actionSentinel ∨
      ∃ x, (calcJR Real.sqrt Real.sinh (fun _ _ _ => 1)
          { n := 2, x := fun _ => 5773502691896257 / 10000000000000000, w := fun _ => 1 } 1
          (fun _ => some 0) (fun _ => 1) (fun _ => 2) (fun _ => 0) (fun _ => 0) (fun _ => 0) 1
          (fun _ => 0) (fun _ => 0) (fun _ => 0) (fun _ => 0) (fun _ => 0)).j 0 = some x ∧
        0 ≤ x) := by
  have hrad : ∀ u : ℝ, 0 < u →
      JRStaeckelIntegrandSquared Real.sinh (fun _ _ _ => 1) u
        (JRStaeckelArg.ofPoint (fun _ => 0) (fun _ => 0) (fun _ => 0) 1 (fun _ => 0)
          (fun _ => 0) (fun _ => 0) (fun _ => 0) (fun _ => 0) 0) < 0 := by
    intro u hu
    have hs : 0 < Real.sinh u := Real.sinh_pos_iff.mpr hu
    have hval : JRStaeckelIntegrandSquared Real.sinh (fun _ _ _ => 1) u
        (JRStaeckelArg.ofPoint (fun _ => 0) (fun _ => 0) (fun _ => 0) 1 (fun _ => 0)
          (fun _ => 0) (fun _ => 0) (fun _ => 0) (fun _ => 0) 0)
        = -(Real.sinh u * Real.sinh u) := by
      simp [JRStaeckelIntegrandSquared, JRStaeckelArg.ofPoint]
    rw [hval]
    exact neg_lt_zero.mpr (mul_pos hs hs)
  have hnodes : ∀ u ∈ glfixedNodes (1 : ℝ) 2
      { n := 2, x := fun _ => 5773502691896257 / 10000000000000000, w := fun _ => 1 },
      0 < u := by
    intro u hu
    simp [glfixedNodes] at hu
    rcases hu with rfl | rfl <;> norm_num
  have hmem : (1 / 2 * (2 + 1) + 1 / 2 * (2 - 1) * (5773502691896257 / 10000000000000000) : ℝ)
      ∈ glfixedNodes (1 : ℝ) 2
        { n := 2, x := fun _ => 5773502691896257 / 10000000000000000, w := fun _ => 1 } := by
    simp [glfixedNodes]
  have hq : gsl_integration_glfixed
      (fun u => JRStaeckelIntegrand Real.sqrt Real.sinh (fun _ _ _ => 1) u
        (JRStaeckelArg.ofPoint (fun _ => 0) (fun _ => 0) (fun _ => 0) 1 (fun _ => 0)
          (fun _ => 0) (fun _ => 0) (fun _ => 0) (fun _ => 0) 0)) (1 : ℝ) 2
      { n := 2, x := fun _ => 5773502691896257 / 10000000000000000, w := fun _ => 1 }
      = none :=
    gsl_integration_glfixed_nan _ _ _ _
      ⟨_, hmem, libmSqrt_of_neg _ _ (hrad _ (hnodes _ hmem))⟩
  have hj : (calcJR Real.sqrt Real.sinh (fun _ _ _ => 1)
      { n := 2, x := fun _ => 5773502691896257 / 10000000000000000, w := fun _ => 1 } 1
      (fun _ => some 0) (fun _ => 1) (fun _ => 2) (fun _ => 0) (fun _ => 0) (fun _ => 0) 1
      (fun _ => 0) (fun _ => 0) (fun _ => 0) (fun _ => 0) (fun _ => 0)).j 0 = none := by
    rw [calcJR_value Real.sqrt Real.sinh (fun _ _ _ => 1) _ 1 (fun _ => some 0) (fun _ => 1)
        (fun _ => 2) (fun _ => 0) (fun _ => 0) (fun _ => 0) 1 (fun _ => 0) (fun _ => 0)
        (fun _ => 0) (fun _ => 0) (fun _ => 0) 0 (by decide),
      (calcJRBody_spec Real.sqrt Real.sinh (fun _ _ _ => 1) _ (fun _ => 1) (fun _ => 2)
        (fun _ => 0) (fun _ => 0) (fun _ => 0) 1 (fun _ => 0) (fun _ => 0) (fun _ => 0)
        (fun _ => 0) (fun _ => 0) 0 _).2.2.2 (by norm_num [turnSentinel])
        (by norm_num [eps6])]
    simp only [Function.update_same]
    rw [hq]
    rfl
  refine ⟨zero_le_one, fun _ => zero_le_one, by norm_num,
    fun u hu => hrad u (hnodes u hu), hj, ?_⟩
  rw [hj]
  rintro (h | ⟨x, h, _⟩) <;> simp at h

/-- C5, amended.  Let `delta > 0`, let the table have non-negative weights and
let `sqrt` return non-negative values on non-negative arguments.  For every
index `ii < ndata`: if `umax > 0` and, whenever the point is integrated, the
squared integrand is non-negative (with `sinh u` not zero) at every quadrature
node, then the value `calcJR` stores in `jr[ii]` is a number that is `9999.99`
or `>= 0`; and if, whenever the point is integrated, the squared integrand of
`calcJz` is non-negative at every quadrature node, the value `calcJz` stores in
`jz[ii]` is a number that is `9999.99` or `>= 0`. -/
theorem actions_nonneg_or_sentinel_of_nonneg_radicand (sqrt sinh : α → α)
    (PhiUV : α → α → α → α) (JzSq : α → JzStaeckelArg α → α) (T : GLTable α) (ndata : Nat)
    (jr jz : Nat → Option α) (umin umax vmin E Lz I3U I3V : Nat → α) (delta : α)
    (u0 sinh2u0 cosh2u0 v0 sin2v0 potu0v0 potupi2 : Nat → α)
    (hsqrt : ∀ x, 0 ≤ x → 0 ≤ sqrt x) (hdelta : 0 < delta)
    (hw : ∀ i, i < (T.n + 1) / 2 → 0 ≤ T.w i) (ii : Nat) (hii : ii < ndata) :
    (0 < umax ii →
      (¬ (umin ii = turnSentinel ∨ umax ii = turnSentinel) →
        ¬ (umax ii - umin ii) / umax ii < eps6 →
        ∀ u ∈ glfixedNodes (umin ii) (umax ii) T,
          sinh u ≠ 0 ∧
          0 ≤ JRStaeckelIntegrandSquared sinh PhiUV u
            (JRStaeckelArg.ofPoint E Lz I3U delta u0 sinh2u0 v0 sin2v0 potu0v0 ii)) →
      (calcJR sqrt sinh PhiUV T ndata jr umin umax E Lz I3U delta u0 sinh2u0 v0 sin2v0
          potu0v0).j ii = some actionSentinel ∨
      ∃ x, (calcJR sqrt sinh PhiUV T ndata jr umin umax E Lz I3U delta u0 sinh2u0 v0 sin2v0
          potu0v0).j ii = some x ∧ 0 ≤ x) ∧
    ((¬ vmin ii = turnSentinel → ¬ (1 / 2 * M_PI - vmin ii) / M_PI * 2 < eps6 →
        ∀ v ∈ glfixedNodes (vmin ii) (M_PI / 2) T,
          0 ≤ JzSq v (JzStaeckelArg.ofPoint E Lz I3V delta u0 cosh2u0 sinh2u0 potupi2 ii)) →
      (calcJz sqrt JzSq T ndata jz vmin E Lz I3V delta u0 cosh2u0 sinh2u0 potupi2).j ii
          = some actionSentinel ∨
      ∃ x, (calcJz sqrt JzSq T ndata jz vmin E Lz I3V delta u0 cosh2u0 sinh2u0 potupi2).j ii
          = some x ∧ 0 ≤ x) := by
  have hpi : (0 : α) < M_PI := M_PI_pos
  have h2le : (0 : α) ≤ 2 := by norm_num
  constructor
  · intro hmax hrad
    rw [calcJR_value sqrt sinh PhiUV T ndata jr umin umax E Lz I3U delta u0 sinh2u0 v0 sin2v0
      potu0v0 ii hii]
    have hs := calcJRBody_spec sqrt sinh PhiUV T umin umax E Lz I3U delta u0 sinh2u0 v0 sin2v0
      potu0v0 ii { j := jr, trace := [] }
    by_cases h1 : umin ii = turnSentinel ∨ umax ii = turnSentinel
    · left
      rw [hs.2.1 h1]
      simp
    · right
      by_cases h2 : (umax ii - umin ii) / umax ii < eps6
      · rw [hs.2.2.1 h1 h2]
        exact ⟨0, by simp, le_rfl⟩
      · rw [hs.2.2.2 h1 h2]
        simp only [Function.update_same]
        have hle : umin ii ≤ umax ii := by
          by_contra hlt
          apply h2
          have : (umax ii - umin ii) / umax ii < 0 :=
            div_neg_of_neg_of_pos (by linarith [not_le.mp hlt]) hmax
          exact this.trans eps6_pos
        obtain ⟨q, hq, hq0⟩ := gsl_integration_glfixed_nonneg
          (fun u => JRStaeckelIntegrand sqrt sinh PhiUV u
            (JRStaeckelArg.ofPoint E Lz I3U delta u0 sinh2u0 v0 sin2v0 potu0v0 ii))
          (umin ii) (umax ii) T
          (fun u hu => ⟨_, libmSqrt_of_nonneg sqrt _ (hrad h1 h2 u hu).2,
            hsqrt _ (hrad h1 h2 u hu).2⟩) hw hle
        refine ⟨q * sqrt 2 * delta / M_PI, ?_,
          div_nonneg (mul_nonneg (mul_nonneg hq0 (hsqrt 2 h2le)) hdelta.le) hpi.le⟩
        rw [hq, libmSqrt_of_nonneg sqrt 2 h2le]
        rfl
  · intro hrad
    rw [calcJz_value sqrt JzSq T ndata jz vmin E Lz I3V delta u0 cosh2u0 sinh2u0 potupi2 ii hii]
    have hs := calcJzBody_spec sqrt JzSq T vmin E Lz I3V delta u0 cosh2u0 sinh2u0 potupi2 ii
      { j := jz, trace := [] }
    by_cases h1 : vmin ii = turnSentinel
    · left
      rw [hs.2.1 h1]
      simp
    · right
      by_cases h2 : (1 / 2 * M_PI - vmin ii) / M_PI * 2 < eps6
      · rw [hs.2.2.1 h1 h2]
        exact ⟨0, by simp, le_rfl⟩
      · rw [hs.2.2.2 h1 h2]
        simp only [Function.update_same]
        have hle : vmin ii ≤ M_PI / 2 := by
          by_contra hlt
          apply h2
          have h3 : (1 / 2 * M_PI - vmin ii) / M_PI < 0 :=
            div_neg_of_neg_of_pos (by linarith [not_le.mp hlt]) hpi
          have h4 : (1 / 2 * M_PI - vmin ii) / M_PI * 2 < 0 := by linarith
          exact h4.trans eps6_pos
        obtain ⟨q, hq, hq0⟩ := gsl_integration_glfixed_nonneg
          (fun v => JzStaeckelIntegrand sqrt JzSq v
            (JzStaeckelArg.ofPoint E Lz I3V delta u0 cosh2u0 sinh2u0 potupi2 ii))
          (vmin ii) (M_PI / 2) T
          (fun v hv => ⟨_, libmSqrt_of_nonneg sqrt _ (hrad h1 h2 v hv),
            hsqrt _ (hrad h1 h2 v hv)⟩) hw hle
        refine ⟨q * 2 * sqrt 2 * delta / M_PI, ?_,
          div_nonneg (mul_nonneg (mul_nonneg (mul_nonneg hq0 h2le) (hsqrt 2 h2le)) hdelta.le)
            hpi.le⟩
        rw [hq, libmSqrt_of_nonneg sqrt 2 h2le]
        rfl

/-- A concrete instance: real arithmetic with the real `sqrt` and `sinh`, the
two-point Gauss-Legendre rule, `delta = 1`, one point with `umin = 1`,
`umax = 2`, `vmin = 0` (the integrating branch of both routines) and
`evaluatePotentialsUV = -1`, for which the squared integrand is `sinh(u)^2`. -/
theorem actions_nonneg_or_sentinel_of_nonneg_radicand_witness :
    ((calcJR Real.sqrt Real.sinh (fun _ _ _ => -1)
          { n := 2, x := fun _ => 5773502691896257 / 10000000000000000, w := fun _ => 1 } 1
          (fun _ => some 0) (fun _ => 1) (fun _ => 2) (fun _ => 0) (fun _ => 0) (fun _ => 0) 1
          (fun _ => 0) (fun _ => 0) (fun _ => 0) (fun _ => 0) (fun _ => 0)).j 0
        = some actionSentinel ∨
      ∃ x : ℝ, (calcJR Real.sqrt Real.sinh (fun _ _ _ => -1)
          { n := 2, x := fun _ => 5773502691896257 / 10000000000000000, w := fun _ => 1 } 1
          (fun _ => some 0) (fun _ => 1) (fun _ => 2) (fun _ => 0) (fun _ => 0) (fun _ => 0) 1
          (fun _ => 0) (fun _ => 0) (fun _ => 0) (fun _ => 0) (fun _ => 0)).j 0 = some x ∧
        0 ≤ x) ∧
    ((calcJz Real.sqrt (fun _ _ => 1)
          { n := 2, x := fun _ => 5773502691896257 / 10000000000000000, w := fun _ => 1 } 1
          (fun _ => some 0) (fun _ => 0) (fun _ => 0) (fun _ => 0) (fun _ => 0) 1
          (fun _ => 0) (fun _ => 0) (fun _ => 0) (fun _ => 0)).j 0 = some actionSentinel ∨
      ∃ x : ℝ, (calcJz Real.sqrt (fun _ _ => 1)
          { n := 2, x := fun _ => 5773502691896257 / 10000000000000000, w := fun _ => 1 } 1
          (fun _ => some 0) (fun _ => 0) (fun _ => 0) (fun _ => 0) (fun _ => 0) 1
          (fun _ => 0) (fun _ => 0) (fun _ => 0) (fun _ => 0)).j 0 = some x ∧ 0 ≤ x) := by
  have h := actions_nonneg_or_sentinel_of_nonneg_radicand Real.sqrt Real.sinh
    (fun _ _ _ => -1) (fun _ _ => 1)
    { n := 2, x := fun _ => 5773502691896257 / 10000000000000000, w := fun _ => 1 } 1
    (fun _ => some 0) (fun _ => some 0) (fun _ => 1) (fun _ => 2) (fun _ => 0) (fun _ => 0)
    (fun _ => 0) (fun _ => 0) (fun _ => 0) 1 (fun _ => 0) (fun _ => 0) (fun _ => 0)
    (fun _ => 0) (fun _ => 0) (fun _ => 0) (fun _ => 0) (fun x _ => Real.sqrt_nonneg x)
    zero_lt_one (fun _ _ => zero_le_one) 0 (by decide)
  refine ⟨h.1 (by norm_num) (fun _ _ u hu => ?_), h.2 (fun _ _ v _ => zero_le_one)⟩
  have hpos : 0 < u := by
    simp [glfixedNodes] at hu
    rcases hu with rfl | rfl <;> norm_num
  refine ⟨(Real.sinh_pos_iff.mpr hpos).ne', ?_⟩
  have hval : JRStaeckelIntegrandSquared Real.sinh (fun _ _ _ => -1) u
      (JRStaeckelArg.ofPoint (fun _ => 0) (fun _ => 0) (fun _ => 0) 1 (fun _ => 0)
        (fun _ => 0) (fun _ => 0) (fun _ => 0) (fun _ => 0) 0)
      = Real.sinh u * Real.sinh u := by
    simp [JRStaeckelIntegrandSquared, JRStaeckelArg.ofPoint]
  rw [hval]
  exact mul_self_nonneg _

theorem expandZ_succ (F : α → α) (ii fuel : Nat) (z_lo z_hi : α) (tr : List (Event α)) :
    expandZ F ii (fuel + 1) z_lo z_hi tr
      = if 0 ≤ F z_lo then
          expandZ F ii fuel z_hi (z_hi * (11 / 10)) (tr ++ [Event.expand ii z_lo z_hi])
        else some (z_lo, z_hi, tr) :=
  rfl

/-- Started from `z_lo = z_hi = 0` with `F(0) >= 0`, the expansion loop of
`calcZmax` never exits: both bounds stay `0`. -/
theorem expandZ_zero (F : α → α) (ii : Nat) (h0 : 0 ≤ F 0) :
    ∀ (fuel : Nat) (tr : List (Event α)), expandZ F ii fuel 0 0 tr = none := by
  intro fuel
  induction fuel with
  | zero => intro tr; rfl
  | succ fuel ih =>
    intro tr
    simp only [expandZ]
    rw [if_pos h0, zero_mul]
    exact ih _

/-- If `F` is negative at `z_lo * 1.1^k`, the expansion loop started from
`(z_lo, 1.1 * z_lo)` exits within `k + 1` evaluations of its condition. -/
theorem expandZ_returns (F : α → α) (ii : Nat) :
    ∀ (k : Nat) (lo hi : α) (tr : List (Event α)), hi = lo * (11 / 10) →
      F (lo * (11 / 10) ^ k) < 0 → ∃ r, expandZ F ii (k + 1) lo hi tr = some r := by
  intro k
  induction k with
  | zero =>
    intro lo hi tr _ hneg
    rw [pow_zero, mul_one] at hneg
    refine ⟨(lo, hi, tr), ?_⟩
    simp only [expandZ]
    rw [if_neg (not_le.mpr hneg)]
  | succ k ih =>
    intro lo hi tr hhi hneg
    rw [expandZ_succ]
    split_ifs with hc
    · apply ih
      · rfl
      · rw [hhi]
        have : lo * (11 / 10) * (11 / 10) ^ k = lo * (11 / 10) ^ (k + 1) := by ring
        rw [this]
        exact hneg
    · exact ⟨_, rfl⟩

/-- For a starting height `z` other than `0` and an effective-force function
that is negative for all sufficiently large `|z|`, the expansion loop of
`calcZmax` exits after finitely many steps. -/
theorem expandZ_terminates [Archimedean α] (F : α → α) (ii : Nat) (z M : α) (hz : z ≠ 0)
    (hF : ∀ x, M < |x| → F x < 0) (tr : List (Event α)) :
    ∃ fuel r, expandZ F ii fuel z (11 / 10 * z) tr = some r := by
  have hzpos : 0 < |z| := abs_pos.mpr hz
  obtain ⟨k, hk⟩ := exists_nat_gt (10 * (M / |z|))
  have hpow : M < |z * (11 / 10) ^ k| := by
    have h1 : (1 : α) + (k : α) * (1 / 10) ≤ (1 + 1 / 10) ^ k :=
      one_add_mul_le_pow (by norm_num) k
    have h2 : M / |z| < (11 / 10 : α) ^ k := by
      have h3 : (1 + 1 / 10 : α) = 11 / 10 := by norm_num
      rw [h3] at h1
      linarith
    rw [abs_mul, abs_of_pos (pow_pos (by norm_num : (0 : α) < 11 / 10) k)]
    calc M = M / |z| * |z| := by field_simp
      _ < (11 / 10) ^ k * |z| := mul_lt_mul_of_pos_right h2 hzpos
      _ = |z| * (11 / 10) ^ k := mul_comm _ _
  exact ⟨k + 1, expandZ_returns F ii k z (11 / 10 * z) tr (mul_comm _ _) (hF _ hpow)⟩

/-- The expansion loop of `calcZmax` keeps `0 < z_lo <= z_hi` when it starts so. -/
theorem expandZ_ordered (F : α → α) (ii : Nat) :
    ∀ (fuel : Nat) (lo hi : α) (tr : List (Event α)) (r : α × α × List (Event α)),
      0 < lo → lo ≤ hi → expandZ F ii fuel lo hi tr = some r → 0 < r.1 ∧ r.1 ≤ r.2.1 := by
  intro fuel
  induction fuel with
  | zero => intro lo hi tr r _ _ h; simp [expandZ] at h
  | succ fuel ih =>
    intro lo hi tr r hlo hle h
    simp only [expandZ] at h
    split at h
    · have hhi : 0 < hi := lt_of_lt_of_le hlo hle
      exact ih _ _ _ r hhi (by nlinarith) h
    · simp only [Option.some.injEq] at h
      subst h
      exact ⟨hlo, hle⟩

/-- For an effective-force function that does not increase with height, a start
`z > 0` away from the turning point, and a root finder that validates its
bracket as GSL does: whenever the expansion loop of `calcZmax` exits, both ends
of the bracket lie where the function is negative, the root finder rejects it,
and the point gets the sentinel `-9999.99`. -/
theorem calcZmaxBody_sentinel_of_antitone {σ : Type} (S : Fsolver α σ) (hS : S.RejectsInvalid)
    (Phi : α → α → α) (fuel : Nat) (z R Ez : Nat → α) (ii : Nat) (st st1 : ZmaxState α σ)
    (hz : 0 < z ii)
    (hmono : ∀ x y, 0 < x → x ≤ y →
      JzAdiabaticIntegrandSquared Phi y { Ez := Ez ii, R := R ii }
        ≤ JzAdiabaticIntegrandSquared Phi x { Ez := Ez ii, R := R ii })
    (hstart : eps7 ≤ JzAdiabaticIntegrandSquared Phi (z ii) { Ez := Ez ii, R := R ii })
    (hret : calcZmaxBody S Phi fuel z R Ez ii st = some st1) :
    st1.zmax ii = turnSentinel := by
  have hnot : ¬ |JzAdiabaticIntegrandSquared Phi (z ii) { Ez := Ez ii, R := R ii }| < eps7 := by
    rw [abs_of_nonneg (le_trans eps7_pos.le hstart)]
    exact not_lt.mpr hstart
  simp only [calcZmaxBody] at hret
  rw [if_neg hnot] at hret
  split at hret
  · simp at hret
  · rename_i z_lo z_hi tr hex
    have hord := expandZ_ordered _ _ _ _ _ _ _ hz (by nlinarith) hex
    have hneg := expandZ_exit _ _ _ _ _ _ _ hex
    have hneg2 := lt_of_le_of_lt (hmono z_lo z_hi hord.1 hord.2) hneg
    have hrej := hS st.s
      (fun x => JzAdiabaticIntegrandSquared Phi x { Ez := Ez ii, R := R ii }) z_lo z_hi
      (Or.inr (Or.inl ⟨hneg, hneg2⟩))
    have hfr : (findRoot S
        (fun x => JzAdiabaticIntegrandSquared Phi x { Ez := Ez ii, R := R ii })
        st.s z_lo z_hi).1 = none := by
      simp only [findRoot]
      rw [if_pos hrej]
    split at hret
    · simp only [Option.some.injEq] at hret
      subst hret
      simp
    · rename_i root hroot
      rw [hfr] at hroot
      simp at hroot

/-- The kernel never stores to `jr` or `err`. -/
theorem actionAngleAdiabatic_actions_frame {σ : Type} (S : Fsolver α σ) (Phi : α → α → α)
    (fuel ndata : Nat) (R vR vT z vz : Nat → α) (gamma : α) (jr jz : Nat → α)
    (err : Nat → Int) (out : ActionsOut α)
    (h : actionAngleAdiabatic_actions S Phi fuel ndata R vR vT z vz gamma jr jz err = some out) :
    out.jr = jr ∧ out.err = err := by
  simp only [actionAngleAdiabatic_actions] at h
  split at h
  · simp at h
  · simp only [Option.some.injEq] at h
    subst h
    exact ⟨rfl, rfl⟩

end FieldLemmas

/-! ## Places where the kernel departs from its contract -/

/-- C1. A one-point batch at the vertical turning point of the harmonic
potential (`R = 1, vT = 1, z = 1, vz = 0`), with the output arrays preset to
`jr = -1`, `jz = -1`, `err = 7`: the call returns, `jr[0]` is still `-1` and
`err[0]` is still `7` (neither was stored to), and `jz[0]` holds the turning
point `zmax = 1`, not an action. -/
theorem actions_leaves_jr_err_unwritten :
    (actionAngleAdiabatic_actions (refSolver (α := ℚ)) (harmonicPhi 1) 0 1 (fun _ => 1)
        (fun _ => 0) (fun _ => 1) (fun _ => 1) (fun _ => 0) 1 (fun _ => -1) (fun _ => -1)
        (fun _ => 7)).map (fun o => (o.jr 0, o.jz 0, o.err 0)) = some (-1, 1, 7) := by
  simp [actionAngleAdiabatic_actions, calcEREzL, forLoop, calcEREzLBody, calcZmax, forLoopM,
    calcZmaxBody, JzAdiabaticIntegrandSquared, evaluateVerticalPotentials, harmonicPhi, eps7]

/-- C2. A two-point batch in the harmonic potential: point 0 starts at `z = 1`
with `vz = 2/5`, point 1 at `z = 1` with `vz = 0`; `jz` and `err` start
zero-filled.  For point 0 the bracket `[1.1, 1.21]` is handed to the root
finder and rejected; the call stores `-9999.99` (not `9999.99`) in `jz[0]`,
leaves `err[0] = 0`, and goes on to point 1, whose `jz[1]` becomes `1`. -/
theorem failed_point_gets_turning_sentinel_and_no_error_code :
    (actionAngleAdiabatic_actions (refSolver (α := ℚ)) (harmonicPhi 1) 5 2 (fun _ => 1)
        (fun _ => 0) (fun _ => 1) (fun _ => 1) (fun i => if i = 0 then 2 / 5 else 0) 1
        (fun _ => 0) (fun _ => 0) (fun _ => 0)).map
      (fun o => (o.jz 0, o.err 0, o.jz 1, o.err 1, o.trace))
      = some (-(999999 / 100), 0, 1, 0,
          [Event.expand 0 1 (11 / 10), Event.fsolverSet 0 (11 / 10) (121 / 100)]) := by
  simp [actionAngleAdiabatic_actions, calcEREzL, forLoop, calcEREzLBody, calcZmax, forLoopM,
    calcZmaxBody, JzAdiabaticIntegrandSquared, evaluateVerticalPotentials, harmonicPhi, eps7,
    expandZ, findRoot, refSolver, turnSentinel]
  norm_num [abs_lt]

/-- C8. The harmonic potential is symmetric about `z = 0`, yet with `Ez = 1/2`
`calcZmax` started from `z = 1` returns `zmax = 1` and started from `z = -1`
returns `zmax = -1`, a negative value at distance 2 from the other; with
`Ez = 29/50` the start `z = -1` hands the root finder the inverted bracket
`[-1.1, -1.21]` and ends with `-9999.99`. -/
theorem calcZmax_not_symmetric :
    (∀ R z : ℚ, evaluateVerticalPotentials (harmonicPhi 1) R (-z)
      = evaluateVerticalPotentials (harmonicPhi 1) R z) ∧
    (calcZmax (refSolver (α := ℚ)) (harmonicPhi 1) 5 1 (fun _ => 0) (fun _ => 1) (fun _ => 0)
        (fun _ => 1) (fun _ => 1 / 2)).map (fun o => o.zmax 0) = some 1 ∧
    (calcZmax (refSolver (α := ℚ)) (harmonicPhi 1) 5 1 (fun _ => 0) (fun _ => -1) (fun _ => 0)
        (fun _ => 1) (fun _ => 1 / 2)).map (fun o => o.zmax 0) = some (-1) ∧
    (calcZmax (refSolver (α := ℚ)) (harmonicPhi 1) 5 1 (fun _ => 0) (fun _ => -1) (fun _ => 0)
        (fun _ => 1) (fun _ => 29 / 50)).map (fun o => (o.zmax 0, o.trace))
      = some (-(999999 / 100),
          [Event.expand 0 (-1) (-(11 / 10)), Event.fsolverSet 0 (-(11 / 10)) (-(121 / 100))]) := by
  refine ⟨fun R z => ?_, ?_, ?_, ?_⟩
  · simp [evaluateVerticalPotentials, harmonicPhi]
  · simp [calcZmax, forLoopM, calcZmaxBody, JzAdiabaticIntegrandSquared,
      evaluateVerticalPotentials, harmonicPhi, eps7]
  · simp [calcZmax, forLoopM, calcZmaxBody, JzAdiabaticIntegrandSquared,
      evaluateVerticalPotentials, harmonicPhi, eps7]
  · simp [calcZmax, forLoopM, calcZmaxBody, JzAdiabaticIntegrandSquared,
      evaluateVerticalPotentials, harmonicPhi, eps7, expandZ, findRoot, refSolver, turnSentinel]
    norm_num [abs_lt]

/-- C9. Harmonic potential, `Ez = 29/50`, start `z = 1`: the effective-force
function is `f(1) = 2/25 >= 1e-7` at the start, the expansion loop exits after
one step with `z_lo = 1.1 < z_hi = 1.21`, these are the bounds passed to
`gsl_root_fsolver_set`, and `f(z_lo) * f(z_hi) > 0`: the bracket holds no sign
change (the root `sqrt(1.16)` lies in the previous interval `[1, 1.1]`). -/
theorem calcZmax_bracket_without_sign_change :
    (eps7 : ℚ) ≤ JzAdiabaticIntegrandSquared (harmonicPhi (1 : ℚ)) 1 { Ez := 29 / 50, R := 1 } ∧
    expandZ (fun x : ℚ => JzAdiabaticIntegrandSquared (harmonicPhi 1) x { Ez := 29 / 50, R := 1 })
        0 5 1 (11 / 10 * 1) []
      = some (11 / 10, 121 / 100, [Event.expand 0 1 (11 / 10)]) ∧
    (11 / 10 : ℚ) < 121 / 100 ∧
    0 < JzAdiabaticIntegrandSquared (harmonicPhi (1 : ℚ)) (11 / 10) { Ez := 29 / 50, R := 1 }
      * JzAdiabaticIntegrandSquared (harmonicPhi (1 : ℚ)) (121 / 100) { Ez := 29 / 50, R := 1 } ∧
    (calcZmax (refSolver (α := ℚ)) (harmonicPhi 1) 5 1 (fun _ => 0) (fun _ => 1) (fun _ => 0)
        (fun _ => 1) (fun _ => 29 / 50)).map (fun o => (o.zmax 0, o.trace))
      = some (-(999999 / 100),
          [Event.expand 0 1 (11 / 10), Event.fsolverSet 0 (11 / 10) (121 / 100)]) := by
  refine ⟨?_, ?_, ?_, ?_, ?_⟩
  · norm_num [JzAdiabaticIntegrandSquared, evaluateVerticalPotentials, harmonicPhi, eps7]
  · simp [expandZ, JzAdiabaticIntegrandSquared, evaluateVerticalPotentials, harmonicPhi]
    norm_num
  · norm_num
  · norm_num [JzAdiabaticIntegrandSquared, evaluateVerticalPotentials, harmonicPhi]
  · simp [calcZmax, forLoopM, calcZmaxBody, JzAdiabaticIntegrandSquared,
      evaluateVerticalPotentials, harmonicPhi, eps7, expandZ, findRoot, refSolver, turnSentinel]
    norm_num [abs_lt]

/-- C10. Harmonic potential and a point in the plane, `z = 0`, with `vz = 1`,
so `Ez = 1/2`; the effective-force function `1/2 - z^2/2` is negative wherever
`|z| > 1`.  The expansion loop starts from `z_lo = z_hi = 0` and its condition
`f(0) = 1/2 >= 0` never changes: for every amount of fuel the loop, `calcZmax`
and the whole kernel fail to return. -/
theorem calcZmax_diverges_at_zero (fuel : Nat) :
    (∀ x : ℚ, 1 < |x| →
      JzAdiabaticIntegrandSquared (harmonicPhi 1) x { Ez := 1 / 2, R := 1 } < 0) ∧
    (∀ tr : List (Event ℚ),
      expandZ (fun x : ℚ => JzAdiabaticIntegrandSquared (harmonicPhi 1) x { Ez := 1 / 2, R := 1 })
        0 fuel 0 (11 / 10 * 0) tr = none) ∧
    calcZmax (refSolver (α := ℚ)) (harmonicPhi 1) fuel 1 (fun _ => 0) (fun _ => 0) (fun _ => 1)
        (fun _ => 1) (fun _ => 1 / 2) = none ∧
    actionAngleAdiabatic_actions (refSolver (α := ℚ)) (harmonicPhi 1) fuel 1 (fun _ => 1)
        (fun _ => 0) (fun _ => 1) (fun _ => 0) (fun _ => 1) 1 (fun _ => 0) (fun _ => 0)
        (fun _ => 0) = none := by
  have h0 : (0 : ℚ) ≤ (fun x : ℚ =>
      JzAdiabaticIntegrandSquared (harmonicPhi 1) x { Ez := 1 / 2, R := 1 }) 0 := by
    norm_num [JzAdiabaticIntegrandSquared, evaluateVerticalPotentials, harmonicPhi]
  have hloop : ∀ tr : List (Event ℚ),
      expandZ (fun x : ℚ => JzAdiabaticIntegrandSquared (harmonicPhi 1) x { Ez := 1 / 2, R := 1 })
        0 fuel 0 (11 / 10 * 0) tr = none := by
    intro tr
    rw [mul_zero]
    exact expandZ_zero _ 0 h0 fuel tr
  have hbody : ∀ st : ZmaxState ℚ (ℚ × ℚ),
      calcZmaxBody (refSolver (α := ℚ)) (harmonicPhi 1) fuel (fun _ => 0) (fun _ => 1)
        (fun _ => 1 / 2) 0 st = none := by
    intro st
    have hnot : ¬ |JzAdiabaticIntegrandSquared (harmonicPhi (1 : ℚ)) 0 { Ez := 1 / 2, R := 1 }|
        < eps7 := by
      norm_num [JzAdiabaticIntegrandSquared, evaluateVerticalPotentials, harmonicPhi, eps7,
        abs_lt]
    simp only [calcZmaxBody]
    rw [if_neg hnot, hloop]
  have hz : calcZmax (refSolver (α := ℚ)) (harmonicPhi 1) fuel 1 (fun _ => 0) (fun _ => 0)
      (fun _ => 1) (fun _ => 1) (fun _ => 1 / 2) = none := by
    simp only [calcZmax, forLoopM, Option.some_bind]
    exact hbody _
  have hfar : ∀ x : ℚ, 1 < |x| →
      JzAdiabaticIntegrandSquared (harmonicPhi 1) x { Ez := 1 / 2, R := 1 } < 0 := by
    intro x hx
    have hsq : 1 < x ^ 2 := by
      rw [← sq_abs]
      nlinarith
    simp only [JzAdiabaticIntegrandSquared, evaluateVerticalPotentials, harmonicPhi]
    linarith
  refine ⟨hfar, hloop, hz, ?_⟩
  have hEz : (calcEREzL 1
      ({ R := fun _ => 1, vR := fun _ => 0, vT := fun _ => 1, z := fun _ => 0,
         vz := fun _ => 1, ER := fun _ => 0, Ez := fun _ => 0, Lz := fun _ => 0 } :
        EnergyMem ℚ) (harmonicPhi 1)).Ez 0 = 1 / 2 := by
    simp [calcEREzL, forLoop, calcEREzLBody, evaluateVerticalPotentials, harmonicPhi]
  simp only [actionAngleAdiabatic_actions, calcZmax, forLoopM, Option.some_bind]
  have hnot : ¬ |(1 / 2 : ℚ) - evaluateVerticalPotentials (harmonicPhi 1) 1 0| < eps7 := by
    norm_num [evaluateVerticalPotentials, harmonicPhi, eps7, abs_lt]
  simp only [calcZmaxBody, JzAdiabaticIntegrandSquared, hEz]
  rw [if_neg hnot]
  have := hloop []
  simp only [JzAdiabaticIntegrandSquared] at this
  rw [this]

end Galpy
